import Mathlib

/-!
Verification model of the trading bot's position/order lifecycle
(`app/paper_trading.py`, `app/position_manager.py`, `app/persistence.py`).

Conventions of the embedding:
* Prices, quantities and balances are rationals (`ℚ`); the Python floats
  are used only for arithmetic and ordered comparisons in the claims below.
* Python dicts keyed by strings/ids are association lists with a
  `setA`/`getA`/`eraseA` interface matching dict assignment, lookup and
  `del`.
* `uuid.uuid4()` is replaced by a fresh-id counter (`next_id`) threaded
  through the system state; ids are `Nat`.
* Timestamps (`created_at`, `expires_at`, `entry_time`, ...) are dropped:
  no claim below depends on them (order expiry is not modelled).
* Log statements become explicit flags/effect values where a claim
  depends on them (warnings, caught exceptions).
-/

namespace TradingBot

/-- Order side, the `side` field of order dicts (`'buy'` / `'sell'`). -/
inductive Side where
  | buy
  | sell
deriving DecidableEq, Repr

/-- Position side, the `side` field of position dicts (`'long'` / `'short'`). -/
inductive PosSide where
  | long
  | short
deriving DecidableEq, Repr

/-- Order status strings used across `paper_trading.py` / `position_manager.py`. -/
inductive OrderStatus where
  | pending
  | filled
  | canceled
  | expired
  | request_cancel
deriving DecidableEq, Repr

/-- Position status strings (`'open'`, `'request_close'`, `'closing'`, `'closed'`). -/
inductive PosStatus where
  | open_
  | request_close
  | closing
  | closed
deriving DecidableEq, Repr

/-- Order kind tag: the `'type'` key set by `PositionManager.place_limit_order`
(`'entry'` / `'exit'`).  A dict without the key behaves as `'entry'`
(`local_order.get('type', 'entry')`); the model makes the field total,
with `entry` standing for both an explicit `'entry'` tag and an absent key. -/
inductive OrderKind where
  | entry
  | exit
deriving DecidableEq, Repr

/-- An order dict as built by `PaperTradingSimulator.place_limit_order`
plus the `type` tag added by `PositionManager.place_limit_order` and the
fill fields added by `_execute_fill`. -/
structure Order where
  order_id : Nat
  symbol : String
  side : Side
  price : ℚ
  amount : ℚ
  status : OrderStatus
  otype : OrderKind
  fill_price : Option ℚ := none
deriving DecidableEq, Repr

/-- A position dict as kept in `PaperTradingSimulator.positions` (and, after
an entry fill, mirrored into `PositionManager.current_position` and the
`test_positions` table). -/
structure SimPosition where
  position_id : Nat
  symbol : String
  side : PosSide
  entry_price : ℚ
  quantity : ℚ
  status : PosStatus
  exit_price : Option ℚ := none
  pnl : Option ℚ := none
  stop_loss : Option ℚ := none
  take_profit : Option ℚ := none
deriving DecidableEq, Repr

/-- Association-list update, mirroring Python dict assignment `d[k] = v`. -/
def setA {α β : Type} [DecidableEq α] (k : α) (v : β) : List (α × β) → List (α × β)
  | [] => [(k, v)]
  | (k', v') :: rest => if k = k' then (k, v) :: rest else (k', v') :: setA k v rest

/-- Association-list lookup, mirroring `d.get(k)` / `d[k]`. -/
def getA {α β : Type} [DecidableEq α] (k : α) : List (α × β) → Option β
  | [] => none
  | (k', v') :: rest => if k = k' then some v' else getA k rest

/-- Association-list removal, mirroring `del d[k]` / `d.pop(k)`. -/
def eraseA {α β : Type} [DecidableEq α] (k : α) : List (α × β) → List (α × β)
  | [] => []
  | (k', v') :: rest => if k = k' then rest else (k', v') :: eraseA k rest

/-- Key-based value update over an association list, mirroring a DynamoDB
`update_item` on the (unique) partition key: every row with the key gets
the update, all other rows are untouched. -/
def updateByKey {β : Type} (k : Nat) (f : β → β) : List (Nat × β) → List (Nat × β)
  | [] => []
  | (k', v) :: rest =>
    if k' = k then (k', f v) :: updateByKey k f rest
    else (k', v) :: updateByKey k f rest

/-- `PaperTradingSimulator` state: the attributes set in `__init__`
(`initial_balance`, `balance`, `positions`, `pending_orders`,
`filled_orders`).  Note that `closed_positions` is *not* among them. -/
structure PaperTradingSimulator where
  initial_balance : ℚ
  balance : ℚ
  positions : List (String × SimPosition)
  pending_orders : List (Nat × Order)
  filled_orders : List Order
deriving DecidableEq, Repr

/-- `PaperTradingSimulator.__init__(initial_balance)`. -/
def PaperTradingSimulator.init (initial_balance : ℚ) : PaperTradingSimulator :=
  { initial_balance := initial_balance
    balance := initial_balance
    positions := []
    pending_orders := []
    filled_orders := [] }

/-- `PositionManager.check_order_status` dereferences
`self.simulator.closed_positions`, an attribute `PaperTradingSimulator`
never defines (its `__init__` sets only `initial_balance`, `balance`,
`positions`, `pending_orders`, `filled_orders`, and no other method adds
one).  In Python the access raises `AttributeError`; the model renders the
missing attribute as a lookup that always yields `none`. -/
def PaperTradingSimulator.closedPositionsAttr (_ : PaperTradingSimulator) :
    Option (List SimPosition) := none

/-- `PaperTradingSimulator.place_limit_order(symbol, side, price, amount)`:
build a `pending` order dict, register it in `pending_orders`, return it.
The fresh `uuid.uuid4()` is supplied by the caller as `oid`. -/
def PaperTradingSimulator.place_limit_order (sim : PaperTradingSimulator)
    (oid : Nat) (symbol : String) (side : Side) (price amount : ℚ) :
    Order × PaperTradingSimulator :=
  let order : Order :=
    { order_id := oid, symbol := symbol, side := side, price := price
      amount := amount, status := .pending, otype := .entry }
  (order, { sim with pending_orders := setA oid order sim.pending_orders })

/-- Result of `PaperTradingSimulator._execute_fill`:
the updated simulator, whether the "SELL order filled but no position
exists" warning was logged, and the position record the fill mutated to
`closed` status immediately before `del self.positions[symbol]` discarded
it (the source keeps no reference to it afterwards). -/
structure FillOutcome where
  sim : PaperTradingSimulator
  warned : Bool := false
  closedRecord : Option SimPosition := none
deriving DecidableEq, Repr

/-- `PaperTradingSimulator._execute_fill(order, fill_price)`. -/
def PaperTradingSimulator.execute_fill (sim : PaperTradingSimulator)
    (order : Order) (fill_price : ℚ) : FillOutcome :=
  let filled : Order := { order with status := .filled, fill_price := some fill_price }
  let sim := { sim with
    filled_orders := sim.filled_orders ++ [filled]
    pending_orders := eraseA order.order_id sim.pending_orders }
  match order.side with
  | .buy =>
    let cost := fill_price * order.amount
    let sim := { sim with balance := sim.balance - cost }
    match getA order.symbol sim.positions with
    | some pos =>
      -- average down into the existing position
      let total_qty := pos.quantity + order.amount
      let avg_price := (pos.entry_price * pos.quantity + fill_price * order.amount) / total_qty
      let pos' := { pos with quantity := total_qty, entry_price := avg_price }
      { sim := { sim with positions := setA order.symbol pos' sim.positions } }
    | none =>
      -- create a new long position (position_id: fresh uuid4, modelled by
      -- reusing the filling order's fresh id)
      let pos' : SimPosition :=
        { position_id := order.order_id, symbol := order.symbol, side := .long,
          entry_price := fill_price, quantity := order.amount, status := .open_ }
      { sim := { sim with positions := setA order.symbol pos' sim.positions } }
  | .sell =>
    let proceeds := fill_price * order.amount
    let sim := { sim with balance := sim.balance + proceeds }
    match getA order.symbol sim.positions with
    | some pos =>
      let realized_pnl := (fill_price - pos.entry_price) * order.amount
      let pos := { pos with quantity := pos.quantity - order.amount }
      if pos.quantity ≤ 0 then
        -- position closed: mutate the record, then remove it from positions
        let closedPos :=
          { pos with status := .closed, exit_price := some fill_price, pnl := some realized_pnl }
        { sim := { sim with positions := eraseA order.symbol sim.positions },
          closedRecord := some closedPos }
      else
        { sim := { sim with positions := setA order.symbol pos sim.positions } }
    | none =>
      -- logger.warning("SELL order filled but no position exists ...")
      { sim := sim, warned := true }

/-- `PaperTradingSimulator.simulate_fill(order_id, current_price)`:
returns whether the order filled, together with the state after the
(possible) `_execute_fill`. -/
def PaperTradingSimulator.simulate_fill (sim : PaperTradingSimulator)
    (oid : Nat) (current_price : ℚ) : Bool × FillOutcome :=
  match getA oid sim.pending_orders with
  | none => (false, { sim := sim })
  | some order =>
    let should_fill :=
      match order.side with
      | .buy => decide (current_price ≤ order.price)
      | .sell => decide (current_price ≥ order.price)
    if should_fill then
      (true, sim.execute_fill order current_price)
    else
      (false, { sim := sim })

/-- `PaperTradingSimulator.get_position(symbol)`. -/
def PaperTradingSimulator.get_position (sim : PaperTradingSimulator)
    (symbol : String) : Option SimPosition :=
  getA symbol sim.positions

/-- A row of the `test_positions` table, keyed by `position_id`.
`persistence.DynamoManager.log_position` / the direct `put_item` calls in
`position_manager.py` write these fields (timestamps dropped). -/
structure DBPosition where
  position_id : Nat
  symbol : String
  side : PosSide
  entry_price : ℚ
  quantity : ℚ
  status : PosStatus
  pnl : ℚ := 0
  exit_price : Option ℚ := none
  stop_loss : Option ℚ := none
  take_profit : Option ℚ := none
deriving DecidableEq, Repr

/-- The TEST-mode tables of `DynamoManager` that the modelled code touches:
`test_orders`, `test_positions`, and the `test_account` balance record
(read via `get_test_account_balance`, written via
`update_test_account_balance`).

Modelled from the spec: `get_test_account_balance` and
`update_test_account_balance` are called on the store by
`PositionManager` but are not defined in `persistence.py`; per the spec's
Order Store Adapter / Account Ledger sections they read and write a
single persisted cash-balance record, modelled as `test_account_balance`. -/
structure Store where
  test_orders : List (Nat × Order)
  test_positions : List (Nat × DBPosition)
  test_account_balance : Option ℚ
deriving DecidableEq, Repr

/-- `DynamoManager.update_order_status(order_id, new_status)`: update-by-key
of the `status` attribute (a key-value update touches every row with the
key, which is unique in DynamoDB). -/
def Store.update_order_status (db : Store) (oid : Nat) (st : OrderStatus) : Store :=
  { db with test_orders :=
      updateByKey oid (fun o => { o with status := st }) db.test_orders }

/-- `DynamoManager.update_position_status(position_id, new_status)`. -/
def Store.update_position_status (db : Store) (pid : Nat) (st : PosStatus) : Store :=
  { db with test_positions :=
      updateByKey pid (fun p => { p with status := st }) db.test_positions }

/-- Modelled from the spec: `DynamoManager.update_test_account_balance`
(missing from `persistence.py`) persists the paper-trading cash balance. -/
def Store.update_test_account_balance (db : Store) (balance : ℚ) : Store :=
  { db with test_account_balance := some balance }

/-- Convert a simulator/manager position dict to a `test_positions` row, as
the `put_item` calls in `check_order_status` do (field-by-field copy with
`Decimal` conversion; `pnl` defaults to 0 when absent). -/
def SimPosition.toDB (p : SimPosition) : DBPosition :=
  { position_id := p.position_id, symbol := p.symbol, side := p.side,
    entry_price := p.entry_price, quantity := p.quantity, status := p.status,
    pnl := p.pnl.getD 0, exit_price := p.exit_price,
    stop_loss := p.stop_loss, take_profit := p.take_profit }

/-- The TEST-mode `PositionManager` state together with the store: the
fields of `PositionManager.__init__` that the modelled operations touch
(`simulator`, `current_position`, `pending_orders`), the store `db`, and
the fresh-id counter standing in for `uuid.uuid4()`. -/
structure SysState where
  simulator : PaperTradingSimulator
  current_position : Option SimPosition
  pending_orders : List (Nat × Order)
  db : Store
  next_id : Nat
deriving DecidableEq, Repr

/-- `PositionManager.__init__` in TEST mode, starting from empty tables:
load the saved balance if present, else persist the configured initial
balance (`test_initial_balance`); build the simulator on that balance.
Returns the starting balance chosen and the store after the constructor. -/
def pm_init_balance (saved_account : Option ℚ) (initial_balance : ℚ) : ℚ × Option ℚ :=
  match saved_account with
  | some balance => (balance, some balance)
  | none => (initial_balance, some initial_balance)

/-- `PositionManager.can_open_position(symbol)`: true only when there is no
current position and no pending order. -/
def can_open_position (s : SysState) : Bool :=
  match s.current_position with
  | some _ => false
  | none => decide (s.pending_orders = [])

/-- `PositionManager.place_limit_order(symbol, side, current_price, amount,
order_type)`, TEST branch: offset the limit price by 0.1%, place in the
simulator, tag the (shared) order dict with the kind, register it in
`pending_orders`, and log it to `test_orders` (status `pending`).
The simulator's copy of the dict is the same object as the manager's, so
the kind tag is visible in both; the model writes the tagged order to
both maps. -/
def place_limit_order (s : SysState) (symbol : String) (side : Side)
    (current_price amount : ℚ) (order_type : OrderKind) : Order × SysState :=
  let offset_pct : ℚ := 1 / 1000
  let limit_price :=
    match side with
    | .buy => current_price * (1 + offset_pct)
    | .sell => current_price * (1 - offset_pct)
  let oid := s.next_id
  let (order₀, sim) := s.simulator.place_limit_order oid symbol side limit_price amount
  let order := { order₀ with otype := order_type }
  let sim := { sim with pending_orders := setA oid order sim.pending_orders }
  let db := { s.db with test_orders := setA oid order s.db.test_orders }
  (order,
   { s with simulator := sim, pending_orders := setA oid order s.pending_orders,
            db := db, next_id := s.next_id + 1 })

/-- Result of `PositionManager.check_order_status` (TEST branch): the
returned value, the state after the call, whether the call's outer
`except` handler caught an exception (the `AttributeError` on
`simulator.closed_positions`), and whether the simulator logged the
no-position warning. -/
structure CheckResult where
  ret : Option Order
  state : SysState
  attrError : Bool := false
  warned : Bool := false
deriving DecidableEq, Repr

/-- `PositionManager.check_order_status(order_id, current_price)`, TEST
branch.  `current_price = none` models the `if not current_price` guard
(a tick price of exactly 0 is likewise falsy in Python; no claim depends
on a zero tick).  On an entry fill the simulator's position is persisted
and becomes `current_position`; on an exit fill `current_position` is
cleared and the subsequent `self.simulator.closed_positions` access
raises `AttributeError`, which the method's outer handler catches,
returning `None` — so neither the closed position nor the account balance
is persisted. -/
def check_order_status (s : SysState) (oid : Nat) (current_price : Option ℚ) :
    CheckResult :=
  match current_price with
  | none => { ret := none, state := s }
  | some price =>
    let (filled, out) := s.simulator.simulate_fill oid price
    if filled then
      match out.sim.filled_orders.find? (fun o => o.order_id = oid) with
      | none => { ret := none, state := { s with simulator := out.sim }, warned := out.warned }
      | some filled_order =>
        let order_type :=
          match getA oid s.pending_orders with
          | some local_order => local_order.otype
          | none => OrderKind.entry
        let pending' := eraseA oid s.pending_orders
        -- persist the filled order to test_orders
        let db := { s.db with test_orders := setA oid filled_order s.db.test_orders }
        let s := { s with simulator := out.sim, pending_orders := pending', db := db }
        match order_type with
        | .entry =>
          match out.sim.get_position filled_order.symbol with
          | some position =>
            let newPositions := setA position.position_id position.toDB s.db.test_positions
            let db := { s.db with test_positions := newPositions }
            { ret := some filled_order,
              state := { s with db := db, current_position := some position },
              warned := out.warned }
          | none =>
            { ret := some filled_order, state := s, warned := out.warned }
        | .exit =>
          -- "[TEST] Exit order filled. Clearing current position."
          let s := { s with current_position := none }
          match s.simulator.closedPositionsAttr with
          | none =>
            -- AttributeError: 'PaperTradingSimulator' object has no
            -- attribute 'closed_positions'; caught by the outer handler,
            -- which logs it and returns None.
            { ret := none, state := s, attrError := true, warned := out.warned }
          | some closed_positions =>
            -- dead code in the source (the attribute never exists): kept
            -- for structural fidelity with lines 297-315.
            match closed_positions.getLast? with
            | some last_closed =>
              if last_closed.symbol = filled_order.symbol then
                let newPositions := setA last_closed.position_id last_closed.toDB s.db.test_positions
                let db := { s.db with test_positions := newPositions }
                let db := db.update_test_account_balance s.simulator.balance
                { ret := some filled_order, state := { s with db := db }, warned := out.warned }
              else
                { ret := some filled_order, state := s, warned := out.warned }
            | none =>
              { ret := some filled_order, state := s, warned := out.warned }
    else
      { ret := none, state := { s with simulator := out.sim }, warned := out.warned }

/-- `PositionManager.close_position(current_price)`: no-op when there is no
current position; otherwise place an opposite-side `exit` limit order for
the full quantity at a marketable limit (sell at 0.995×price, buy at
1.005×price). -/
def close_position (s : SysState) (current_price : ℚ) : SysState :=
  match s.current_position with
  | none => s
  | some pos =>
    let exit_side : Side := if pos.side = .long then .sell else .buy
    let limit_price :=
      match exit_side with
      | .sell => current_price * (995 / 1000)
      | .buy => current_price * (1005 / 1000)
    (place_limit_order s pos.symbol exit_side limit_price pos.quantity .exit).2

/-- The Python string a position's `side` field holds. -/
def posSideStr : PosSide → String
  | .long => "long"
  | .short => "short"

/-- `PositionManager.close_position_immediate` computes the exit side as
`'sell' if side == 'buy' else 'buy'`, where `side` is the *position's*
side string (`'long'`/`'short'`, never `'buy'`), so the comparison is
always false and the exit side is always `'buy'`. -/
def immediate_exit_side (side : PosSide) : Side :=
  if posSideStr side = "buy" then .sell else .buy

/-- `DynamoManager.get_active_position` (TEST branch): scan `test_positions`
for `status IN ('open', 'request_close')` and return the first item of
the scan result (or `None` when the scan is empty); no distinct handling
exists for a scan returning more than one item. -/
def get_active_position (positions : List (Nat × DBPosition)) : Option DBPosition :=
  let items := positions.filter fun kv =>
    decide (kv.2.status = .open_ ∨ kv.2.status = .request_close)
  match items with
  | [] => none
  | kv :: _ => some kv.2

/-- Observable side effects of one `sync_state` invocation. -/
inductive Eff where
  | imported (oid : Nat)
  | canceled (oid : Nat)
  | placedClose (pid : Nat) (oid : Nat)
deriving DecidableEq, Repr

/-- Fault injection for `sync_state`'s exception structure: no fault, an
exception raised in the pass-1 scan, an exception raised while processing
one cancel request (order id given), an exception raised in the pass-3
scan, or an exception raised in the pass-4 body. -/
inductive Fault where
  | noFault
  | inPass1
  | inPass2Item (oid : Nat)
  | inPass3
  | inPass4
deriving DecidableEq, Repr

/-- The store scan `FilterExpression='#st = :status'` over `test_orders`. -/
def scanOrders (st : OrderStatus) (db : Store) : List (Nat × Order) :=
  db.test_orders.filter fun kv => decide (kv.2.status = st)

/-- The store scan `FilterExpression='#st = :status'` over `test_positions`. -/
def scanPositions (st : PosStatus) (db : Store) : List (Nat × DBPosition) :=
  db.test_positions.filter fun kv => decide (kv.2.status = st)

/-- `sync_state` pass 1, per order: a pending store order not yet in the
manager's `pending_orders` is injected into the simulator (if absent
there) and into the manager's map. -/
def importOrder (s : SysState) (kv : Nat × Order) : SysState × List Eff :=
  if (getA kv.1 s.pending_orders).isSome then (s, [])
  else
    let sim :=
      if (getA kv.1 s.simulator.pending_orders).isSome then s.simulator
      else { s.simulator with pending_orders := setA kv.1 kv.2 s.simulator.pending_orders }
    ({ s with simulator := sim, pending_orders := setA kv.1 kv.2 s.pending_orders },
     [.imported kv.1])

/-- `sync_state` pass 1: import new pending orders from the store. -/
def pass1 (s : SysState) : SysState × List Eff :=
  (scanOrders .pending s.db).foldl
    (fun acc kv =>
      let (s', e) := importOrder acc.1 kv
      (s', acc.2 ++ e))
    (s, [])

/-- `sync_state` pass 2, per cancel request (TEST branch): drop the order
from the simulator, persist status `canceled`, drop it from the manager's
`pending_orders`. -/
def processCancel (s : SysState) (kv : Nat × Order) : SysState × List Eff :=
  let sim := { s.simulator with pending_orders := eraseA kv.1 s.simulator.pending_orders }
  let db := s.db.update_order_status kv.1 .canceled
  ({ s with simulator := sim, db := db, pending_orders := eraseA kv.1 s.pending_orders },
   [.canceled kv.1])

/-- `sync_state` pass 2: process cancel requests; each item is wrapped in
its own `try`/`except`, so a fault on one item skips only that item. -/
def pass2 (f : Fault) (s : SysState) : SysState × List Eff :=
  (scanOrders .request_cancel s.db).foldl
    (fun acc kv =>
      if f = .inPass2Item kv.1 then acc
      else
        let (s', e) := processCancel acc.1 kv
        (s', acc.2 ++ e))
    (s, [])

/-- `sync_state` pass 3, per close request: with no current price for the
position's symbol, log a warning and leave the status unchanged (retried
next cycle); with a price, `close_position_immediate` places an
exit-tagged limit order for the stored quantity (the `position_data`
snapshot is passed explicitly, so lookup always succeeds and placement in
TEST mode always succeeds), then the status is advanced to `closing`. -/
def processCloseRequest (prices : List (String × ℚ)) (s : SysState)
    (kv : Nat × DBPosition) : SysState × List Eff :=
  match getA kv.2.symbol prices with
  | none => (s, [])
  | some price =>
    let exit_side := immediate_exit_side kv.2.side
    let (order, s') := place_limit_order s kv.2.symbol exit_side price kv.2.quantity .exit
    let db := s'.db.update_position_status kv.1 .closing
    ({ s' with db := db }, [.placedClose kv.1 order.order_id])

/-- `sync_state` pass 3: process close requests. -/
def pass3 (prices : List (String × ℚ)) (s : SysState) : SysState × List Eff :=
  (scanPositions .request_close s.db).foldl
    (fun acc kv =>
      let (s', e) := processCloseRequest prices acc.1 kv
      (s', acc.2 ++ e))
    (s, [])

/-- `sync_state` pass 4: overlay the stored stop-loss/take-profit onto the
in-memory `current_position` (a stored value of 0 is falsy in
`if db_pos.get('stop_loss')` and becomes `None`). -/
def pass4 (s : SysState) : SysState :=
  match s.current_position with
  | none => s
  | some p =>
    match getA p.position_id s.db.test_positions with
    | none => s
    | some dbp =>
      let sl := match dbp.stop_loss with
                | some v => if v = 0 then none else some v
                | none => none
      let tp := match dbp.take_profit with
                | some v => if v = 0 then none else some v
                | none => none
      { s with current_position := some { p with stop_loss := sl, take_profit := tp } }

/-- Result of one `sync_state` invocation: the state after it, the side
effects it performed, and whether an exception escaped to the caller
(never: the whole method body is wrapped in `try`/`except`). -/
structure SyncResult where
  state : SysState
  effects : List Eff
  escaped : Bool := false
deriving DecidableEq, Repr

/-- `PositionManager.sync_state(current_prices)`, TEST branch, with fault
injection.  One `try` wraps all four passes (lines 541/692), so an
exception in the pass-1 or pass-3 scan aborts the remaining passes for
that invocation but is still caught; per-item handlers guard each cancel
request and the pass-4 body. -/
def sync_state (f : Fault) (s : SysState) (prices : List (String × ℚ)) : SyncResult :=
  if f = .inPass1 then { state := s, effects := [] }
  else
    let p1 := pass1 s
    let p2 := pass2 f p1.1
    if f = .inPass3 then { state := p2.1, effects := p1.2 ++ p2.2 }
    else
      let p3 := pass3 prices p2.1
      let s4 := if f = .inPass4 then p3.1 else pass4 p3.1
      { state := s4, effects := p1.2 ++ p2.2 ++ p3.2 }

/-- Order ids of the cancel effects of a run. -/
def cancelIds (effs : List Eff) : List Nat :=
  effs.filterMap fun e =>
    match e with
    | .canceled oid => some oid
    | _ => none

/-- `(position_id, order_id)` pairs of the close orders placed in a run. -/
def closePlacements (effs : List Eff) : List (Nat × Nat) :=
  effs.filterMap fun e =>
    match e with
    | .placedClose pid oid => some (pid, oid)
    | _ => none

/-- Number of close orders placed for a given position id. -/
def closeCount (pid : Nat) (effs : List Eff) : Nat :=
  ((closePlacements effs).filter fun pr => decide (pr.1 = pid)).length

/-- Run `sync_state` (no faults) over a list of cycles, each with its own
price map, accumulating all effects. -/
def runCycles (s : SysState) (cycles : List (List (String × ℚ))) :
    SysState × List Eff :=
  cycles.foldl
    (fun acc pm =>
      let r := sync_state .noFault acc.1 pm
      (r.state, acc.2 ++ r.effects))
    (s, [])

/-! ### Helper lemmas about the fill engine -/

/-- `simulate_fill` on an order satisfying its fill condition executes the
fill. -/
theorem simulate_fill_fills (sim : PaperTradingSimulator) (oid : Nat) (p : ℚ)
    (order : Order) (h : getA oid sim.pending_orders = some order)
    (hfill : (order.side = .buy ∧ p ≤ order.price) ∨ (order.side = .sell ∧ order.price ≤ p)) :
    sim.simulate_fill oid p = (true, sim.execute_fill order p) := by
  unfold PaperTradingSimulator.simulate_fill
  simp only [h]
  rcases hfill with ⟨hs, hp⟩ | ⟨hs, hp⟩ <;> rw [hs] <;> simp [hp]

/-- `simulate_fill` on an order not satisfying its fill condition leaves the
simulator unchanged. -/
theorem simulate_fill_no_fill (sim : PaperTradingSimulator) (oid : Nat) (p : ℚ)
    (order : Order) (h : getA oid sim.pending_orders = some order)
    (hno : ¬ ((order.side = .buy ∧ p ≤ order.price) ∨ (order.side = .sell ∧ order.price ≤ p))) :
    sim.simulate_fill oid p = (false, { sim := sim }) := by
  unfold PaperTradingSimulator.simulate_fill
  simp only [h]
  cases hs : order.side <;> simp [hs] at hno ⊢ <;> simp [hno]

/-- `simulate_fill` on an unknown order id is a no-op. -/
theorem simulate_fill_unknown (sim : PaperTradingSimulator) (oid : Nat) (p : ℚ)
    (h : getA oid sim.pending_orders = none) :
    sim.simulate_fill oid p = (false, { sim := sim }) := by
  unfold PaperTradingSimulator.simulate_fill
  simp only [h]

/-- `_execute_fill` always appends the filled order, stamped with the fill
price, to `filled_orders`. -/
theorem execute_fill_filled_orders (sim : PaperTradingSimulator) (order : Order)
    (fp : ℚ) :
    (sim.execute_fill order fp).sim.filled_orders
      = sim.filled_orders ++ [{ order with status := .filled, fill_price := some fp }] := by
  unfold PaperTradingSimulator.execute_fill
  cases order.side <;> dsimp only <;> (repeat' split) <;> rfl

/-- `_execute_fill` of a sell order with no tracked position for the symbol:
proceeds are credited, positions untouched, the warning is logged. -/
theorem execute_fill_sell_no_pos (sim : PaperTradingSimulator) (order : Order)
    (fp : ℚ) (hs : order.side = .sell)
    (hp : getA order.symbol sim.positions = none) :
    (sim.execute_fill order fp).sim.balance = sim.balance + fp * order.amount
    ∧ (sim.execute_fill order fp).sim.positions = sim.positions
    ∧ (sim.execute_fill order fp).warned = true := by
  unfold PaperTradingSimulator.execute_fill
  rw [hs]
  simp [hp]

/-! ### Claim theorems -/

/-- C5: for every pending simulated order and every price tick, a buy order
fills iff the tick price is ≤ the order's limit price, a sell order fills
iff the tick price is ≥ the limit price, and in both cases the recorded
`fill_price` equals the tick price, not the limit price. -/
theorem C5_simulated_fill_correct (sim : PaperTradingSimulator) (oid : Nat)
    (p : ℚ) (order : Order) (h : getA oid sim.pending_orders = some order) :
    ((sim.simulate_fill oid p).1 = true ↔
      (order.side = .buy ∧ p ≤ order.price) ∨ (order.side = .sell ∧ order.price ≤ p))
    ∧ ((sim.simulate_fill oid p).1 = true →
        (sim.simulate_fill oid p).2.sim.filled_orders
          = sim.filled_orders ++ [{ order with status := .filled, fill_price := some p }]) := by
  by_cases hc : (order.side = .buy ∧ p ≤ order.price) ∨ (order.side = .sell ∧ order.price ≤ p)
  · rw [simulate_fill_fills sim oid p order h hc]
    exact ⟨by simp [hc], fun _ => execute_fill_filled_orders sim order p⟩
  · rw [simulate_fill_no_fill sim oid p order h hc]
    exact ⟨by simp [hc], by simp⟩

/-- Witness for C5: a pending buy order with limit 10 on a tick at 9 fills,
and the recorded fill price is 9, the tick price. -/
theorem C5_witness :
    let order : Order := { order_id := 7, symbol := "BTC/USDT", side := .buy,
                           price := 10, amount := 2, status := .pending, otype := .entry }
    let sim : PaperTradingSimulator :=
      { initial_balance := 100, balance := 100, positions := [],
        pending_orders := [(7, order)], filled_orders := [] }
    (sim.simulate_fill 7 9).1 = true
    ∧ (sim.simulate_fill 7 9).2.sim.filled_orders
        = [{ order with status := .filled, fill_price := some 9 }] := by
  intro order sim
  have h := C5_simulated_fill_correct sim 7 9 order (by decide)
  have hfill : (sim.simulate_fill 7 9).1 = true := h.1.mpr (Or.inl ⟨rfl, by norm_num⟩)
  exact ⟨hfill, h.2 hfill⟩

/-- C10: filling a sell order for a symbol with no tracked position credits
the full proceeds (`fill_price * amount`) to the cash balance, leaves the
position set unchanged, and reports the fill as successful, with only the
warning logged. -/
theorem C10_sell_without_position (sim : PaperTradingSimulator) (oid : Nat)
    (p : ℚ) (order : Order) (h1 : getA oid sim.pending_orders = some order)
    (h2 : order.side = .sell) (h3 : getA order.symbol sim.positions = none)
    (h4 : order.price ≤ p) :
    ((sim.simulate_fill oid p).1 = true)
    ∧ (sim.simulate_fill oid p).2.sim.balance = sim.balance + p * order.amount
    ∧ (sim.simulate_fill oid p).2.sim.positions = sim.positions
    ∧ (sim.simulate_fill oid p).2.warned = true := by
  rw [simulate_fill_fills sim oid p order h1 (Or.inr ⟨h2, h4⟩)]
  have hf := execute_fill_sell_no_pos sim order p h2 h3
  exact ⟨rfl, hf.1, hf.2.1, hf.2.2⟩

/-- Witness for C10: a sell order on a symbol with no position fills at 20,
credits 20 × 3 = 60, and leaves the (empty) position set unchanged. -/
theorem C10_witness :
    let order : Order := { order_id := 4, symbol := "ETH/USDT", side := .sell,
                           price := 15, amount := 3, status := .pending, otype := .exit }
    let sim : PaperTradingSimulator :=
      { initial_balance := 50, balance := 50, positions := [],
        pending_orders := [(4, order)], filled_orders := [] }
    ((sim.simulate_fill 4 20).1 = true)
    ∧ (sim.simulate_fill 4 20).2.sim.balance = 110
    ∧ (sim.simulate_fill 4 20).2.sim.positions = []
    ∧ (sim.simulate_fill 4 20).2.warned = true := by
  intro order sim
  have h := C10_sell_without_position sim 4 20 order (by decide) rfl (by decide) (by norm_num)
  refine ⟨h.1, ?_, h.2.2.1, h.2.2.2⟩
  rw [h.2.1]; norm_num

/-- An open long position used in concrete scenarios. -/
def exActiveA : DBPosition :=
  { position_id := 1, symbol := "BTC/USDT", side := .long,
    entry_price := 100, quantity := 1, status := .open_ }

/-- A second, distinct open long position. -/
def exActiveB : DBPosition :=
  { position_id := 2, symbol := "ETH/USDT", side := .long,
    entry_price := 10, quantity := 5, status := .open_ }

/-- C9 counterexample: with two positions of status `open` in the table,
`get_active_position` silently resolves to the first scanned item instead
of surfacing a data-integrity error (its only outcomes are a position or
`None`; there is no error path for multiple matches). -/
theorem C9_counterexample :
    get_active_position [(1, exActiveA), (2, exActiveB)] = some exActiveA := by
  decide

/-- C9 amended: `get_active_position` returns `None` when no position has
status `open` or `request_close`, returns that position when exactly one
does, and when more than one matches it returns the first matching item
of the scan without surfacing an error. -/
theorem C9_amended_first_match (positions : List (Nat × DBPosition)) :
    ((positions.filter fun kv =>
        decide (kv.2.status = .open_ ∨ kv.2.status = .request_close)) = []
      → get_active_position positions = none)
    ∧ (∀ kv, (positions.filter fun kv' =>
        decide (kv'.2.status = .open_ ∨ kv'.2.status = .request_close)) = [kv]
      → get_active_position positions = some kv.2)
    ∧ (∀ kv rest, (positions.filter fun kv' =>
        decide (kv'.2.status = .open_ ∨ kv'.2.status = .request_close)) = kv :: rest
      → get_active_position positions = some kv.2) := by
  refine ⟨?_, ?_, ?_⟩
  · intro h; unfold get_active_position; rw [h]
  · intro kv h; unfold get_active_position; rw [h]
  · intro kv rest h; unfold get_active_position; rw [h]

/-- Witness for C9 amended: an empty table yields `None`; a table with one
open position yields it; a table with two yields the first. -/
theorem C9_amended_witness :
    get_active_position [] = none
    ∧ get_active_position [(1, exActiveA)] = some exActiveA
    ∧ get_active_position [(1, exActiveA), (2, exActiveB)] = some exActiveA := by
  refine ⟨(C9_amended_first_match []).1 (by decide), ?_, ?_⟩
  · exact (C9_amended_first_match [(1, exActiveA)]).2.1 (1, exActiveA) (by decide)
  · exact (C9_amended_first_match [(1, exActiveA), (2, exActiveB)]).2.2
      (1, exActiveA) [(2, exActiveB)] (by decide)

/-- A long position of 1 BTC at 100, open in the simulator and the store. -/
def exOpenSimPos : SimPosition :=
  { position_id := 0, symbol := "BTC/USDT", side := .long,
    entry_price := 100, quantity := 1, status := .open_ }

/-- State after the entry fill of `exOpenSimPos`: the position is open in
the simulator, mirrored in `test_positions`, `current_position` is set,
the cash balance is 9900 in the simulator while the store still holds the
10000 persisted at start-up. -/
def exStateC1 : SysState :=
  { simulator :=
      { initial_balance := 10000, balance := 9900,
        positions := [("BTC/USDT", exOpenSimPos)],
        pending_orders := [], filled_orders := [] },
    current_position := some exOpenSimPos,
    pending_orders := [],
    db := { test_orders := [], test_positions := [(0, exOpenSimPos.toDB)],
            test_account_balance := some 10000 },
    next_id := 1 }

/-- C1 evaluated at a failing input: from `exStateC1`, `close_position 101`
places the exit order (id 1) and the next `check_order_status` at tick
101 fills it — the simulator credits the proceeds and drops the position,
`current_position` is cleared, but `simulator.closed_positions` does not
exist, so the `AttributeError` is caught by the outer handler: the call
returns `None`, the closed position is never persisted (the store row
keeps status `open`), and the account balance is never persisted (the
store keeps 10000 while the simulator holds 10001). -/
theorem C1_exit_fill_persists_nothing :
    (check_order_status (close_position exStateC1 101) 1 (some 101)).ret = none
    ∧ (check_order_status (close_position exStateC1 101) 1 (some 101)).attrError = true
    ∧ (check_order_status (close_position exStateC1 101) 1 (some 101)).state.current_position = none
    ∧ (check_order_status (close_position exStateC1 101) 1 (some 101)).state.simulator.positions = []
    ∧ (check_order_status (close_position exStateC1 101) 1 (some 101)).state.simulator.balance = 10001
    ∧ (check_order_status (close_position exStateC1 101) 1 (some 101)).state.db.test_account_balance
        = some 10000
    ∧ getA 0 (check_order_status (close_position exStateC1 101) 1 (some 101)).state.db.test_positions
        = some exOpenSimPos.toDB := by
  norm_num +decide [check_order_status, close_position, place_limit_order, exStateC1, exOpenSimPos,
    PaperTradingSimulator.simulate_fill, PaperTradingSimulator.execute_fill,
    PaperTradingSimulator.place_limit_order, PaperTradingSimulator.get_position,
    PaperTradingSimulator.closedPositionsAttr, SimPosition.toDB,
    getA, setA, eraseA, List.find?]

/-- A store row left with status `open` although the simulator no longer
tracks the position (exactly what C1's failed persistence produces),
subsequently set to `request_close` by the dashboard. -/
def exZombie : DBPosition :=
  { position_id := 0, symbol := "BTC/USDT", side := .long,
    entry_price := 100, quantity := 1, status := .request_close }

/-- TEST state with the zombie close request and an otherwise idle manager. -/
def exStateC3 : SysState :=
  { simulator := PaperTradingSimulator.init 10000,
    current_position := none,
    pending_orders := [],
    db := { test_orders := [], test_positions := [(0, exZombie)],
            test_account_balance := some 10000 },
    next_id := 5 }

/-- C3 evaluated at a failing input: `close_position_immediate` computes the
exit side by comparing the position's side (`'long'`) with `'buy'`, so
the exit order it places for a long position is a **buy**; `sync_state`
places that exit-tagged buy order (id 5) for the zombie close request,
and when `check_order_status` fills it at tick 100, the simulator
**creates a brand-new open position** — the exit fill opened a position
instead of closing one, and the call still ends in the caught
`AttributeError` with return `None`. -/
theorem C3_exit_fill_creates_position :
    immediate_exit_side .long = Side.buy
    ∧ (getA 5 (sync_state .noFault exStateC3 [("BTC/USDT", 100)]).state.pending_orders).map
        (fun o => (o.side, o.otype)) = some (Side.buy, OrderKind.exit)
    ∧ (check_order_status (sync_state .noFault exStateC3 [("BTC/USDT", 100)]).state
        5 (some 100)).state.simulator.positions
        = [("BTC/USDT", { position_id := 5, symbol := "BTC/USDT", side := .long,
                          entry_price := 100, quantity := 1, status := .open_ })]
    ∧ (check_order_status (sync_state .noFault exStateC3 [("BTC/USDT", 100)]).state
        5 (some 100)).ret = none
    ∧ (check_order_status (sync_state .noFault exStateC3 [("BTC/USDT", 100)]).state
        5 (some 100)).attrError = true := by
  norm_num +decide [check_order_status, sync_state, pass1, pass2, pass3, pass4, scanOrders,
    scanPositions, processCloseRequest, immediate_exit_side, posSideStr,
    place_limit_order, exStateC3, exZombie, Store.update_position_status,
    PaperTradingSimulator.simulate_fill, PaperTradingSimulator.execute_fill,
    PaperTradingSimulator.place_limit_order, PaperTradingSimulator.get_position,
    PaperTradingSimulator.closedPositionsAttr, PaperTradingSimulator.init,
    getA, setA, eraseA, List.find?]

/-- A pending entry order in both the manager and the simulator. -/
def exEntryOrder : Order :=
  { order_id := 3, symbol := "BTC/USDT", side := .buy, price := 100,
    amount := 1, status := .pending, otype := .entry }

/-- Idle TEST state with `exEntryOrder` pending and balance 10000 persisted. -/
def exStateC4 : SysState :=
  { simulator :=
      { initial_balance := 10000, balance := 10000, positions := [],
        pending_orders := [(3, exEntryOrder)], filled_orders := [] },
    current_position := none,
    pending_orders := [(3, exEntryOrder)],
    db := { test_orders := [(3, exEntryOrder)], test_positions := [],
            test_account_balance := some 10000 },
    next_id := 4 }

/-- C4 counterexample: an entry fill is a state-changing fill (the cash
balance drops from 10000 to 9900 and a position is created and
persisted), yet the account balance in the store is not updated — it
still holds 10000. -/
theorem C4_counterexample :
    (check_order_status exStateC4 3 (some 100)).ret.isSome = true
    ∧ (check_order_status exStateC4 3 (some 100)).state.simulator.balance = 9900
    ∧ (check_order_status exStateC4 3 (some 100)).state.db.test_account_balance = some 10000 := by
  norm_num +decide [check_order_status, exStateC4, exEntryOrder,
    PaperTradingSimulator.simulate_fill, PaperTradingSimulator.execute_fill,
    PaperTradingSimulator.get_position, SimPosition.toDB,
    getA, setA, eraseA, List.find?]

/-- C4 amended: at construction a previously saved balance is reloaded (the
simulator starts from the saved balance, not the configured initial
balance), and when none is saved the initial balance is persisted
immediately; but `check_order_status` never persists the account balance
— not on entry fills (no persist call exists on that path) and not on
exit fills (the persist call is unreachable behind the
`closed_positions` `AttributeError`). -/
theorem C4_amended_balance_reload_no_fill_persist :
    (∀ saved init : ℚ, pm_init_balance (some saved) init = (saved, some saved))
    ∧ (∀ init : ℚ, pm_init_balance none init = (init, some init))
    ∧ (∀ (s : SysState) (oid : Nat) (cp : Option ℚ),
        (check_order_status s oid cp).state.db.test_account_balance
          = s.db.test_account_balance) := by
  refine ⟨fun _ _ => rfl, fun _ => rfl, fun s oid cp => ?_⟩
  unfold check_order_status
  cases cp with
  | none => rfl
  | some p =>
    dsimp only
    repeat' split <;> try rfl

/-! ### Association-list lemmas -/

theorem getA_updateByKey {β : Type} (l : List (Nat × β)) (k pid : Nat) (f : β → β) :
    getA pid (updateByKey k f l)
      = if pid = k then (getA pid l).map f else getA pid l := by
  induction l with
  | nil => by_cases h : pid = k <;> simp [getA, updateByKey, h]
  | cons a t ih =>
    obtain ⟨ak, av⟩ := a
    by_cases hak : ak = k
    · subst hak
      by_cases hpa : pid = ak <;> simp [getA, updateByKey, hpa, ih]
    · by_cases hpa : pid = ak
      · have hpk : ¬ pid = k := fun h => hak (hpa ▸ h)
        simp [getA, updateByKey, hak, hpa, hpk]
      · simp [getA, updateByKey, hak, hpa, ih]

theorem keys_updateByKey {β : Type} (l : List (Nat × β)) (k : Nat) (f : β → β) :
    (updateByKey k f l).map Prod.fst = l.map Prod.fst := by
  induction l with
  | nil => rfl
  | cons a t ih =>
    obtain ⟨ak, av⟩ := a
    by_cases hak : ak = k <;> simp [updateByKey, hak, ih]

theorem mem_updateByKey {β : Type} (l : List (Nat × β)) (k : Nat) (f : β → β) :
    ∀ kv ∈ updateByKey k f l, ∃ kv₀ ∈ l, kv.1 = kv₀.1
      ∧ kv.2 = (if kv.1 = k then f kv₀.2 else kv₀.2) := by
  induction l with
  | nil => simp [updateByKey]
  | cons a t ih =>
    obtain ⟨ak, av⟩ := a
    intro kv hkv
    by_cases hak : ak = k
    · rw [updateByKey, if_pos hak] at hkv
      rcases List.mem_cons.mp hkv with h | h
      · exact ⟨(ak, av), List.mem_cons_self _ _, by simp [h], by simp [h, hak]⟩
      · obtain ⟨kv₀, hm, hk, hv⟩ := ih kv h
        exact ⟨kv₀, List.mem_cons_of_mem _ hm, hk, hv⟩
    · rw [updateByKey, if_neg hak] at hkv
      rcases List.mem_cons.mp hkv with h | h
      · exact ⟨(ak, av), List.mem_cons_self _ _, by simp [h], by simp [h, hak]⟩
      · obtain ⟨kv₀, hm, hk, hv⟩ := ih kv h
        exact ⟨kv₀, List.mem_cons_of_mem _ hm, hk, hv⟩

theorem mem_setA {α β : Type} [DecidableEq α] (k : α) (v : β)
    (l : List (α × β)) : ∀ kv ∈ setA k v l, kv = (k, v) ∨ kv ∈ l := by
  induction l with
  | nil => simp [setA]
  | cons a t ih =>
    intro kv hkv
    unfold setA at hkv
    split at hkv
    · rcases List.mem_cons.mp hkv with h | h
      · exact Or.inl h
      · exact Or.inr (List.mem_cons_of_mem a h)
    · rcases List.mem_cons.mp hkv with h | h
      · exact Or.inr (h ▸ List.mem_cons_self a t)
      · rcases ih kv h with h' | h'
        · exact Or.inl h'
        · exact Or.inr (List.mem_cons_of_mem a h')

/-! ### Pass-level lemmas for `sync_state` -/

theorem importOrder_db (s : SysState) (kv : Nat × Order) :
    (importOrder s kv).1.db = s.db := by
  unfold importOrder; repeat' split <;> rfl

theorem importOrder_next_id (s : SysState) (kv : Nat × Order) :
    (importOrder s kv).1.next_id = s.next_id := by
  unfold importOrder; repeat' split <;> rfl

theorem importOrder_eff (s : SysState) (kv : Nat × Order) :
    ∀ e ∈ (importOrder s kv).2, ∃ i, e = Eff.imported i := by
  unfold importOrder; repeat' split <;> simp

theorem pass1_foldl_db (L : List (Nat × Order)) :
    ∀ acc : SysState × List Eff,
      (L.foldl (fun acc kv =>
        let (s', e) := importOrder acc.1 kv
        (s', acc.2 ++ e)) acc).1.db = acc.1.db := by
  induction L with
  | nil => intro acc; rfl
  | cons a t ih =>
    intro acc
    rw [List.foldl_cons, ih]
    exact importOrder_db acc.1 a

theorem pass1_db (s : SysState) : (pass1 s).1.db = s.db :=
  pass1_foldl_db _ _

theorem pass1_foldl_next_id (L : List (Nat × Order)) :
    ∀ acc : SysState × List Eff,
      (L.foldl (fun acc kv =>
        let (s', e) := importOrder acc.1 kv
        (s', acc.2 ++ e)) acc).1.next_id = acc.1.next_id := by
  induction L with
  | nil => intro acc; rfl
  | cons a t ih =>
    intro acc
    rw [List.foldl_cons, ih]
    exact importOrder_next_id acc.1 a

theorem pass1_next_id (s : SysState) : (pass1 s).1.next_id = s.next_id :=
  pass1_foldl_next_id _ _

theorem pass1_foldl_eff (L : List (Nat × Order)) :
    ∀ acc : SysState × List Eff,
      (∀ e ∈ acc.2, ∃ i, e = Eff.imported i) →
      ∀ e ∈ (L.foldl (fun acc kv =>
        let (s', e) := importOrder acc.1 kv
        (s', acc.2 ++ e)) acc).2, ∃ i, e = Eff.imported i := by
  induction L with
  | nil => intro acc h; exact h
  | cons a t ih =>
    intro acc h
    rw [List.foldl_cons]
    refine ih _ ?_
    intro e he
    rcases List.mem_append.mp he with h' | h'
    · exact h e h'
    · exact importOrder_eff acc.1 a e h'

theorem pass1_eff (s : SysState) :
    ∀ e ∈ (pass1 s).2, ∃ i, e = Eff.imported i :=
  pass1_foldl_eff _ _ (by simp)

theorem processCancel_positions (s : SysState) (kv : Nat × Order) :
    (processCancel s kv).1.db.test_positions = s.db.test_positions := rfl

theorem processCancel_next_id (s : SysState) (kv : Nat × Order) :
    (processCancel s kv).1.next_id = s.next_id := rfl

theorem pass2_foldl_positions (f : Fault) (L : List (Nat × Order)) :
    ∀ acc : SysState × List Eff,
      (L.foldl (fun acc kv =>
        if f = .inPass2Item kv.1 then acc
        else
          let (s', e) := processCancel acc.1 kv
          (s', acc.2 ++ e)) acc).1.db.test_positions = acc.1.db.test_positions := by
  induction L with
  | nil => intro acc; rfl
  | cons a t ih =>
    intro acc
    rw [List.foldl_cons]
    split
    · exact ih acc
    · rw [ih]; rfl

theorem pass2_positions (f : Fault) (s : SysState) :
    (pass2 f s).1.db.test_positions = s.db.test_positions :=
  pass2_foldl_positions f _ _

theorem pass2_foldl_next_id (f : Fault) (L : List (Nat × Order)) :
    ∀ acc : SysState × List Eff,
      (L.foldl (fun acc kv =>
        if f = .inPass2Item kv.1 then acc
        else
          let (s', e) := processCancel acc.1 kv
          (s', acc.2 ++ e)) acc).1.next_id = acc.1.next_id := by
  induction L with
  | nil => intro acc; rfl
  | cons a t ih =>
    intro acc
    rw [List.foldl_cons]
    split
    · exact ih acc
    · rw [ih]; rfl

theorem pass2_next_id (f : Fault) (s : SysState) :
    (pass2 f s).1.next_id = s.next_id :=
  pass2_foldl_next_id f _ _

theorem pass2_foldl_eff (f : Fault) (L : List (Nat × Order)) :
    ∀ acc : SysState × List Eff,
      (L.foldl (fun acc kv =>
        if f = .inPass2Item kv.1 then acc
        else
          let (s', e) := processCancel acc.1 kv
          (s', acc.2 ++ e)) acc).2
        = acc.2 ++ (L.filter fun kv => !decide (f = .inPass2Item kv.1)).map
            (fun kv => Eff.canceled kv.1) := by
  induction L with
  | nil => intro acc; simp
  | cons a t ih =>
    intro acc
    rw [List.foldl_cons]
    by_cases hf : f = .inPass2Item a.1
    · rw [if_pos hf, ih, List.filter_cons]
      simp [hf]
    · rw [if_neg hf, ih, List.filter_cons]
      simp [hf, processCancel]

theorem pass2_eff (f : Fault) (s : SysState) :
    (pass2 f s).2
      = ((scanOrders .request_cancel s.db).filter
          fun kv => !decide (f = .inPass2Item kv.1)).map
            (fun kv => Eff.canceled kv.1) := by
  have h := pass2_foldl_eff f (scanOrders .request_cancel s.db) (s, [])
  simpa [pass2] using h

theorem processCancel_orders (s : SysState) (kv : Nat × Order) :
    (processCancel s kv).1.db.test_orders
      = updateByKey kv.1 (fun o => { o with status := .canceled }) s.db.test_orders := rfl

theorem pass2_foldl_clears (L : List (Nat × Order)) :
    ∀ acc : SysState × List Eff,
      (∀ kv ∈ acc.1.db.test_orders, kv.2.status = .request_cancel → kv.1 ∈ L.map Prod.fst) →
      ∀ kv ∈ (L.foldl (fun acc kv =>
          if Fault.noFault = .inPass2Item kv.1 then acc
          else
            let (s', e) := processCancel acc.1 kv
            (s', acc.2 ++ e)) acc).1.db.test_orders,
        kv.2.status ≠ .request_cancel := by
  induction L with
  | nil =>
    intro acc h kv hkv hst
    exact absurd (h kv hkv hst) (by simp)
  | cons a t ih =>
    intro acc h
    rw [List.foldl_cons, if_neg (by simp)]
    refine ih _ ?_
    intro kv hkv hst
    dsimp only at hkv
    rw [processCancel_orders] at hkv
    obtain ⟨kv₀, hm, hk, hv⟩ := mem_updateByKey _ _ _ kv hkv
    by_cases hka : kv.1 = a.1
    · rw [if_pos hka] at hv
      rw [hv] at hst
      exact absurd hst (by simp)
    · rw [if_neg hka] at hv
      have hmem := h kv₀ hm (by rw [← hv]; exact hst)
      rw [List.map_cons] at hmem
      rcases List.mem_cons.mp hmem with h' | h'
      · exact absurd (hk.trans h') hka
      · rw [hk]; exact h'

theorem pass2_noFault_clears (s : SysState) :
    ∀ kv ∈ (pass2 .noFault s).1.db.test_orders, kv.2.status ≠ .request_cancel := by
  refine pass2_foldl_clears _ _ ?_
  intro kv hkv hst
  have : kv ∈ scanOrders .request_cancel s.db := by
    simp [scanOrders, List.mem_filter, hkv, hst]
  exact List.mem_map.mpr ⟨kv, this, rfl⟩

theorem processCloseRequest_none (prices : List (String × ℚ)) (s : SysState)
    (kv : Nat × DBPosition) (h : getA kv.2.symbol prices = none) :
    processCloseRequest prices s kv = (s, []) := by
  unfold processCloseRequest
  rw [h]

theorem processCloseRequest_some_positions (prices : List (String × ℚ)) (s : SysState)
    (kv : Nat × DBPosition) (pr : ℚ) (h : getA kv.2.symbol prices = some pr) :
    (processCloseRequest prices s kv).1.db.test_positions
      = updateByKey kv.1 (fun p => { p with status := .closing }) s.db.test_positions := by
  unfold processCloseRequest
  rw [h]
  rfl

theorem processCloseRequest_some_eff (prices : List (String × ℚ)) (s : SysState)
    (kv : Nat × DBPosition) (pr : ℚ) (h : getA kv.2.symbol prices = some pr) :
    (processCloseRequest prices s kv).2 = [.placedClose kv.1 s.next_id] := by
  unfold processCloseRequest
  rw [h]
  rfl

theorem processCloseRequest_orders_prop (prices : List (String × ℚ)) (s : SysState)
    (kv : Nat × DBPosition)
    (h : ∀ o ∈ s.db.test_orders, o.2.status ≠ .request_cancel) :
    ∀ o ∈ (processCloseRequest prices s kv).1.db.test_orders,
      o.2.status ≠ .request_cancel := by
  intro o ho
  unfold processCloseRequest at ho
  cases hp : getA kv.2.symbol prices with
  | none => rw [hp] at ho; exact h o ho
  | some pr =>
    rw [hp] at ho
    dsimp only [place_limit_order, Store.update_position_status,
      PaperTradingSimulator.place_limit_order] at ho
    rcases mem_setA _ _ _ o ho with h' | h'
    · rw [h']; simp
    · exact h o h'

theorem pass3_foldl_clears (prices : List (String × ℚ)) (L : List (Nat × DBPosition)) :
    ∀ acc : SysState × List Eff,
      (∀ kv ∈ acc.1.db.test_positions, kv.2.status = .request_close →
        (∃ item ∈ L, item.1 = kv.1 ∧ item.2.symbol = kv.2.symbol)
        ∨ getA kv.2.symbol prices = none) →
      ∀ kv ∈ (L.foldl (fun acc kv =>
          let (s', e) := processCloseRequest prices acc.1 kv
          (s', acc.2 ++ e)) acc).1.db.test_positions,
        kv.2.status = .request_close → getA kv.2.symbol prices = none := by
  induction L with
  | nil =>
    intro acc h kv hkv hst
    rcases h kv hkv hst with ⟨item, hm, _, _⟩ | h'
    · exact absurd hm (List.not_mem_nil item)
    · exact h'
  | cons a t ih =>
    intro acc h
    rw [List.foldl_cons]
    refine ih _ ?_
    intro kv hkv hst
    dsimp only at hkv
    cases hp : getA a.2.symbol prices with
    | none =>
      rw [processCloseRequest_none prices acc.1 a hp] at hkv
      rcases h kv hkv hst with ⟨item, hm, hkey, hsym⟩ | h'
      · rcases List.mem_cons.mp hm with h'' | h''
        · right
          rw [← hsym, h''] at *
          exact hp
        · exact Or.inl ⟨item, h'', hkey, hsym⟩
      · exact Or.inr h'
    | some pr =>
      rw [processCloseRequest_some_positions prices acc.1 a pr hp] at hkv
      obtain ⟨kv₀, hm₀, hk₀, hv₀⟩ := mem_updateByKey _ _ _ kv hkv
      by_cases hka : kv.1 = a.1
      · rw [if_pos hka] at hv₀
        rw [hv₀] at hst
        exact absurd hst (by simp)
      · rw [if_neg hka] at hv₀
        rcases h kv₀ hm₀ (by rw [← hv₀]; exact hst) with ⟨item, hm, hkey, hsym⟩ | h'
        · rcases List.mem_cons.mp hm with h'' | h''
          · exact absurd (hk₀.trans hkey.symm) (h'' ▸ hka)
          · exact Or.inl ⟨item, h'', hk₀ ▸ hkey, hv₀ ▸ hsym⟩
        · exact Or.inr (hv₀ ▸ h')

theorem pass3_clears (prices : List (String × ℚ)) (s : SysState) :
    ∀ kv ∈ (pass3 prices s).1.db.test_positions,
      kv.2.status = .request_close → getA kv.2.symbol prices = none := by
  refine pass3_foldl_clears _ _ _ ?_
  intro kv hkv hst
  left
  refine ⟨kv, ?_, rfl, rfl⟩
  simp [scanPositions, List.mem_filter, hkv, hst]

theorem pass3_foldl_orders_prop (prices : List (String × ℚ)) (L : List (Nat × DBPosition)) :
    ∀ acc : SysState × List Eff,
      (∀ o ∈ acc.1.db.test_orders, o.2.status ≠ .request_cancel) →
      ∀ o ∈ (L.foldl (fun acc kv =>
          let (s', e) := processCloseRequest prices acc.1 kv
          (s', acc.2 ++ e)) acc).1.db.test_orders,
        o.2.status ≠ .request_cancel := by
  induction L with
  | nil => intro acc h; exact h
  | cons a t ih =>
    intro acc h
    rw [List.foldl_cons]
    exact ih _ (processCloseRequest_orders_prop prices acc.1 a h)

theorem pass3_orders_prop (prices : List (String × ℚ)) (s : SysState)
    (h : ∀ o ∈ s.db.test_orders, o.2.status ≠ .request_cancel) :
    ∀ o ∈ (pass3 prices s).1.db.test_orders, o.2.status ≠ .request_cancel := by
  unfold pass3
  exact pass3_foldl_orders_prop prices _ (s, []) h

theorem pass4_db (s : SysState) : (pass4 s).db = s.db := by
  unfold pass4
  split
  · rfl
  · split
    · rfl
    · rfl

/-- Pulling `sync_state .noFault` apart into its four passes. -/
theorem sync_state_noFault (s : SysState) (prices : List (String × ℚ)) :
    sync_state .noFault s prices =
      { state := pass4 (pass3 prices (pass2 .noFault (pass1 s).1).1).1,
        effects := (pass1 s).2 ++ (pass2 .noFault (pass1 s).1).2
          ++ (pass3 prices (pass2 .noFault (pass1 s).1).1).2 } := rfl

theorem scanOrders_empty (db : Store)
    (h : ∀ kv ∈ db.test_orders, kv.2.status ≠ .request_cancel) :
    scanOrders .request_cancel db = [] := by
  rw [scanOrders, List.filter_eq_nil_iff]
  intro kv hkv
  simp [h kv hkv]

theorem pass2_of_empty_scan (f : Fault) (s : SysState)
    (h : scanOrders .request_cancel s.db = []) : pass2 f s = (s, []) := by
  unfold pass2
  rw [h]
  rfl

theorem pass3_foldl_no_price (prices : List (String × ℚ)) (L : List (Nat × DBPosition))
    (hL : ∀ kv ∈ L, getA kv.2.symbol prices = none) :
    ∀ acc : SysState × List Eff,
      (L.foldl (fun acc kv =>
        let (s', e) := processCloseRequest prices acc.1 kv
        (s', acc.2 ++ e)) acc) = acc := by
  induction L with
  | nil => intro acc; rfl
  | cons a t ih =>
    intro acc
    rw [List.foldl_cons]
    have ha := hL a (List.mem_cons_self a t)
    rw [show (let (s', e) := processCloseRequest prices acc.1 a; (s', acc.2 ++ e)) = acc by
      rw [processCloseRequest_none prices acc.1 a ha]; simp]
    exact ih (fun kv hkv => hL kv (List.mem_cons_of_mem a hkv)) acc

theorem pass3_of_no_price (prices : List (String × ℚ)) (s : SysState)
    (h : ∀ kv ∈ scanPositions .request_close s.db, getA kv.2.symbol prices = none) :
    pass3 prices s = (s, []) := by
  unfold pass3
  exact pass3_foldl_no_price prices _ h (s, [])

theorem cancelIds_append (l₁ l₂ : List Eff) :
    cancelIds (l₁ ++ l₂) = cancelIds l₁ ++ cancelIds l₂ := by
  simp [cancelIds]

theorem closePlacements_append (l₁ l₂ : List Eff) :
    closePlacements (l₁ ++ l₂) = closePlacements l₁ ++ closePlacements l₂ := by
  simp [closePlacements]

theorem cancelIds_of_imports (l : List Eff) (h : ∀ e ∈ l, ∃ i, e = Eff.imported i) :
    cancelIds l = [] := by
  rw [cancelIds, List.filterMap_eq_nil_iff]
  intro e he
  obtain ⟨i, hi⟩ := h e he
  rw [hi]

theorem closePlacements_of_imports (l : List Eff) (h : ∀ e ∈ l, ∃ i, e = Eff.imported i) :
    closePlacements l = [] := by
  rw [closePlacements, List.filterMap_eq_nil_iff]
  intro e he
  obtain ⟨i, hi⟩ := h e he
  rw [hi]

/-- C6: running `sync_state` twice with the same price view and no
intervening external store mutation produces no cancel and no close-order
side effects on the second run. -/
theorem C6_sync_state_idempotent (s : SysState) (prices : List (String × ℚ)) :
    cancelIds (sync_state .noFault (sync_state .noFault s prices).state prices).effects = []
    ∧ closePlacements
        (sync_state .noFault (sync_state .noFault s prices).state prices).effects = [] := by
  -- state after the first run
  set s1 := (sync_state .noFault s prices).state with hs1
  -- after run 1, no store order is in status request_cancel
  have hA : ∀ kv ∈ s1.db.test_orders, kv.2.status ≠ .request_cancel := by
    rw [hs1, sync_state_noFault]
    intro kv hkv
    rw [pass4_db] at hkv
    exact pass3_orders_prop prices _ (pass2_noFault_clears (pass1 s).1) kv hkv
  -- after run 1, every request_close position has no available price
  have hB : ∀ kv ∈ s1.db.test_positions, kv.2.status = .request_close →
      getA kv.2.symbol prices = none := by
    rw [hs1, sync_state_noFault]
    intro kv hkv
    rw [pass4_db] at hkv
    exact pass3_clears prices _ kv hkv
  -- run 2 decomposition
  rw [sync_state_noFault s1 prices]
  have hdb1 : (pass1 s1).1.db = s1.db := pass1_db s1
  have h2 : pass2 .noFault (pass1 s1).1 = ((pass1 s1).1, []) := by
    refine pass2_of_empty_scan _ _ ?_
    rw [hdb1]
    exact scanOrders_empty s1.db hA
  have h3 : pass3 prices (pass2 .noFault (pass1 s1).1).1 = ((pass2 .noFault (pass1 s1).1).1, []) := by
    refine pass3_of_no_price prices _ ?_
    rw [h2]
    intro kv hkv
    rw [scanPositions, hdb1] at hkv
    have hm := List.mem_filter.mp hkv
    have hst : kv.2.status = .request_close := by simpa using hm.2
    exact hB kv hm.1 hst
  rw [h3, h2]
  simp only [cancelIds_append, closePlacements_append]
  rw [cancelIds_of_imports _ (pass1_eff s1), closePlacements_of_imports _ (pass1_eff s1)]
  simp [cancelIds, closePlacements]

theorem processCloseRequest_some_next_id (prices : List (String × ℚ)) (s : SysState)
    (kv : Nat × DBPosition) (pr : ℚ) (h : getA kv.2.symbol prices = some pr) :
    (processCloseRequest prices s kv).1.next_id = s.next_id + 1 := by
  unfold processCloseRequest
  rw [h]
  rfl

/-- Pass 3's side effects are a function of the positions table, the price
view and the id counter alone: two states agreeing on those produce the
same close orders. -/
theorem pass3_foldl_eff_eq (prices : List (String × ℚ)) (L : List (Nat × DBPosition)) :
    ∀ (a b : SysState) (ea eb : List Eff),
      a.db.test_positions = b.db.test_positions → a.next_id = b.next_id →
      ∃ tail,
        (L.foldl (fun acc kv =>
          let (s', e) := processCloseRequest prices acc.1 kv
          (s', acc.2 ++ e)) (a, ea)).2 = ea ++ tail
        ∧ (L.foldl (fun acc kv =>
          let (s', e) := processCloseRequest prices acc.1 kv
          (s', acc.2 ++ e)) (b, eb)).2 = eb ++ tail := by
  induction L with
  | nil =>
    intro a b ea eb _ _
    exact ⟨[], by simp, by simp⟩
  | cons kv t ih =>
    intro a b ea eb hpos hnid
    rw [List.foldl_cons, List.foldl_cons]
    cases hp : getA kv.2.symbol prices with
    | none =>
      rw [show (let (s', e) := processCloseRequest prices a kv; (s', ea ++ e)) = (a, ea) by
            rw [processCloseRequest_none prices a kv hp]; simp,
          show (let (s', e) := processCloseRequest prices b kv; (s', eb ++ e)) = (b, eb) by
            rw [processCloseRequest_none prices b kv hp]; simp]
      exact ih a b ea eb hpos hnid
    | some pr =>
      have hea : (processCloseRequest prices a kv).2 = [.placedClose kv.1 a.next_id] :=
        processCloseRequest_some_eff prices a kv pr hp
      have heb : (processCloseRequest prices b kv).2 = [.placedClose kv.1 b.next_id] :=
        processCloseRequest_some_eff prices b kv pr hp
      have hpos' : (processCloseRequest prices a kv).1.db.test_positions
          = (processCloseRequest prices b kv).1.db.test_positions := by
        rw [processCloseRequest_some_positions prices a kv pr hp,
            processCloseRequest_some_positions prices b kv pr hp, hpos]
      have hnid' : (processCloseRequest prices a kv).1.next_id
          = (processCloseRequest prices b kv).1.next_id := by
        rw [processCloseRequest_some_next_id prices a kv pr hp,
            processCloseRequest_some_next_id prices b kv pr hp, hnid]
      obtain ⟨tail, hta, htb⟩ :=
        ih (processCloseRequest prices a kv).1 (processCloseRequest prices b kv).1
          (ea ++ (processCloseRequest prices a kv).2)
          (eb ++ (processCloseRequest prices b kv).2) hpos' hnid'
      refine ⟨[Eff.placedClose kv.1 a.next_id] ++ tail, ?_, ?_⟩
      · rw [hta, hea, List.append_assoc]
      · rw [htb, heb, hnid, List.append_assoc]

theorem scanPositions_congr (db₁ db₂ : Store)
    (h : db₁.test_positions = db₂.test_positions) (st : PosStatus) :
    scanPositions st db₁ = scanPositions st db₂ := by
  rw [scanPositions, scanPositions, h]

theorem pass3_eff_eq (prices : List (String × ℚ)) (a b : SysState)
    (hpos : a.db.test_positions = b.db.test_positions) (hnid : a.next_id = b.next_id) :
    (pass3 prices a).2 = (pass3 prices b).2 := by
  unfold pass3
  rw [scanPositions_congr a.db b.db hpos]
  obtain ⟨tail, hta, htb⟩ :=
    pass3_foldl_eff_eq prices (scanPositions .request_close b.db) a b [] [] hpos hnid
  rw [hta, htb]

theorem pass3_foldl_eff_close (prices : List (String × ℚ)) (L : List (Nat × DBPosition)) :
    ∀ acc : SysState × List Eff,
      (∀ e ∈ acc.2, ∃ p o, e = Eff.placedClose p o) →
      ∀ e ∈ (L.foldl (fun acc kv =>
          let (s', e) := processCloseRequest prices acc.1 kv
          (s', acc.2 ++ e)) acc).2, ∃ p o, e = Eff.placedClose p o := by
  induction L with
  | nil => intro acc h; exact h
  | cons kv t ih =>
    intro acc h
    rw [List.foldl_cons]
    refine ih _ ?_
    intro e he
    rcases List.mem_append.mp he with h' | h'
    · exact h e h'
    · cases hp : getA kv.2.symbol prices with
      | none =>
        rw [processCloseRequest_none prices acc.1 kv hp] at h'
        exact absurd h' (List.not_mem_nil e)
      | some pr =>
        rw [processCloseRequest_some_eff prices acc.1 kv pr hp] at h'
        rcases List.mem_singleton.mp h' with h''
        exact ⟨kv.1, acc.1.next_id, h''⟩

theorem pass3_eff_close (prices : List (String × ℚ)) (s : SysState) :
    ∀ e ∈ (pass3 prices s).2, ∃ p o, e = Eff.placedClose p o := by
  unfold pass3
  exact pass3_foldl_eff_close prices _ (s, []) (by simp)

theorem cancelIds_of_closes (l : List Eff) (h : ∀ e ∈ l, ∃ p o, e = Eff.placedClose p o) :
    cancelIds l = [] := by
  rw [cancelIds, List.filterMap_eq_nil_iff]
  intro e he
  obtain ⟨p, o, hpo⟩ := h e he
  rw [hpo]

theorem closePlacements_of_cancels (L : List (Nat × Order)) :
    closePlacements (L.map fun kv => Eff.canceled kv.1) = [] := by
  induction L with
  | nil => rfl
  | cons a t ih => simp [closePlacements, ih]

theorem cancelIds_of_cancel_map (L : List (Nat × Order)) :
    cancelIds (L.map fun kv => Eff.canceled kv.1) = L.map Prod.fst := by
  induction L with
  | nil => rfl
  | cons a t ih => simpa [cancelIds] using ih

theorem map_fst_filter_key (L : List (Nat × Order)) (oid : Nat) :
    ((L.filter fun kv => !decide (oid = kv.1)).map Prod.fst)
      = (L.map Prod.fst).filter (fun i => !decide (i = oid)) := by
  induction L with
  | nil => rfl
  | cons a t ih =>
    by_cases h : oid = a.1
    · have h1 : (!decide (oid = a.1)) = false := by simp [h]
      have h2 : (!decide (a.1 = oid)) = false := by simp [h]
      simp only [List.filter_cons, List.map_cons, h1, h2]
      simp [ih]
    · have h1 : (!decide (oid = a.1)) = true := by simp [h]
      have h2 : (!decide (a.1 = oid)) = true := by simp [Ne.symm h]
      simp only [List.filter_cons, List.map_cons, h1, h2]
      simp [ih]

/-- Pulling `sync_state (.inPass2Item oid)` apart into its passes. -/
theorem sync_state_inPass2Item (oid : Nat) (s : SysState) (prices : List (String × ℚ)) :
    sync_state (.inPass2Item oid) s prices =
      { state := pass4 (pass3 prices (pass2 (.inPass2Item oid) (pass1 s).1).1).1,
        effects := (pass1 s).2 ++ (pass2 (.inPass2Item oid) (pass1 s).1).2
          ++ (pass3 prices (pass2 (.inPass2Item oid) (pass1 s).1).1).2 } := rfl

/-- An order whose cancellation has been requested externally. -/
def exCancelOrder : Order :=
  { order_id := 11, symbol := "BTC/USDT", side := .buy, price := 100,
    amount := 1, status := .request_cancel, otype := .entry }

/-- TEST state with one pending cancel request and one pending close request
(price available), both of which a fault-free `sync_state` would process. -/
def exStateC8 : SysState :=
  { simulator :=
      { initial_balance := 10000, balance := 10000, positions := [],
        pending_orders := [(11, exCancelOrder)], filled_orders := [] },
    current_position := none,
    pending_orders := [(11, exCancelOrder)],
    db := { test_orders := [(11, exCancelOrder)], test_positions := [(0, exZombie)],
            test_account_balance := some 10000 },
    next_id := 20 }

/-- C8 counterexample: with one cancel request and one close request both
ready to process, a fault-free `sync_state` cancels order 11 and places a
close order for position 0 — but when an exception is raised in pass 1,
the single `try` wrapping all four passes catches it and the invocation
performs *neither*: the exception in one pass prevented the remaining
passes from running. -/
theorem C8_counterexample :
    (sync_state .inPass1 exStateC8 [("BTC/USDT", 100)]).effects = []
    ∧ cancelIds (sync_state .noFault exStateC8 [("BTC/USDT", 100)]).effects = [11]
    ∧ closePlacements (sync_state .noFault exStateC8 [("BTC/USDT", 100)]).effects
        = [(0, 20)] := by
  refine ⟨rfl, ?_, ?_⟩ <;>
    norm_num +decide [sync_state, pass1, pass2, pass3, pass4, scanOrders, scanPositions,
      importOrder, processCancel, processCloseRequest, immediate_exit_side, posSideStr,
      place_limit_order, exStateC8, exCancelOrder, exZombie,
      Store.update_order_status, Store.update_position_status, updateByKey,
      PaperTradingSimulator.place_limit_order, cancelIds, closePlacements,
      getA, setA, eraseA]

/-- C8 amended: the single `try`/`except` wrapping `sync_state` means no
exception ever escapes to the caller, and the per-item handlers inside
pass 2 (and the handler around pass 4) localize those faults: an
exception while processing one cancel request removes only that order's
cancellation from the run — every other cancel request is still
processed, the close-request pass still runs and places exactly the same
close orders, and a pass-4 fault changes no effect at all.  (An exception
in the pass-1 or pass-3 scan, by contrast, aborts the remaining passes,
as the counterexample shows.) -/
theorem C8_amended_fault_isolation :
    (∀ (f : Fault) (s : SysState) (prices : List (String × ℚ)),
      (sync_state f s prices).escaped = false)
    ∧ (∀ (oid : Nat) (s : SysState) (prices : List (String × ℚ)),
        closePlacements (sync_state (.inPass2Item oid) s prices).effects
          = closePlacements (sync_state .noFault s prices).effects)
    ∧ (∀ (oid : Nat) (s : SysState) (prices : List (String × ℚ)),
        cancelIds (sync_state (.inPass2Item oid) s prices).effects
          = (cancelIds (sync_state .noFault s prices).effects).filter
              (fun i => !decide (i = oid)))
    ∧ (∀ (s : SysState) (prices : List (String × ℚ)),
        (sync_state .inPass4 s prices).effects = (sync_state .noFault s prices).effects) := by
  refine ⟨?_, ?_, ?_, fun s prices => rfl⟩
  · intro f s prices
    unfold sync_state
    by_cases h1 : f = .inPass1
    · rw [if_pos h1]
    · rw [if_neg h1]
      by_cases h3 : f = .inPass3
      · rw [if_pos h3]
      · rw [if_neg h3]
  · intro oid s prices
    rw [sync_state_inPass2Item, sync_state_noFault]
    simp only [closePlacements_append]
    have h2f := pass2_eff (.inPass2Item oid) (pass1 s).1
    have h2n := pass2_eff .noFault (pass1 s).1
    rw [h2f, h2n, closePlacements_of_cancels, closePlacements_of_cancels]
    have h3 : (pass3 prices (pass2 (.inPass2Item oid) (pass1 s).1).1).2
        = (pass3 prices (pass2 .noFault (pass1 s).1).1).2 := by
      refine pass3_eff_eq prices _ _ ?_ ?_
      · rw [pass2_positions, pass2_positions]
      · rw [pass2_next_id, pass2_next_id]
    rw [h3]
  · intro oid s prices
    rw [sync_state_inPass2Item, sync_state_noFault]
    simp only [cancelIds_append]
    rw [cancelIds_of_imports _ (pass1_eff s),
        cancelIds_of_closes _ (pass3_eff_close prices _),
        cancelIds_of_closes _ (pass3_eff_close prices _)]
    have h2f := pass2_eff (.inPass2Item oid) (pass1 s).1
    have h2n := pass2_eff .noFault (pass1 s).1
    rw [h2f, h2n, cancelIds_of_cancel_map, cancelIds_of_cancel_map]
    have hfilter : ((scanOrders .request_cancel (pass1 s).1.db).filter
        fun kv => !decide (Fault.inPass2Item oid = Fault.inPass2Item kv.1))
        = (scanOrders .request_cancel (pass1 s).1.db).filter
            fun kv => !decide (oid = kv.1) := by
      apply List.filter_congr
      intro kv _
      simp
    have hall : ((scanOrders .request_cancel (pass1 s).1.db).filter
        fun kv => !decide (Fault.noFault = Fault.inPass2Item kv.1))
        = scanOrders .request_cancel (pass1 s).1.db := by
      apply List.filter_eq_self.mpr
      intro kv _
      simp
    rw [hfilter, hall, map_fst_filter_key]
    simp

theorem closeCount_append (pid : Nat) (l₁ l₂ : List Eff) :
    closeCount pid (l₁ ++ l₂) = closeCount pid l₁ + closeCount pid l₂ := by
  rw [closeCount, closePlacements_append, List.filter_append, List.length_append]
  rfl

theorem closeCount_nil (pid : Nat) : closeCount pid [] = 0 := rfl

theorem closeCount_single_eq (pid oid : Nat) :
    closeCount pid [Eff.placedClose pid oid] = 1 := by
  simp [closeCount, closePlacements]

theorem closeCount_single_ne (pid pid' oid : Nat) (h : pid' ≠ pid) :
    closeCount pid [Eff.placedClose pid' oid] = 0 := by
  simp [closeCount, closePlacements, h]

theorem getA_mem {β : Type} (l : List (Nat × β)) (k : Nat) (v : β)
    (h : getA k l = some v) : (k, v) ∈ l := by
  induction l with
  | nil => simp [getA] at h
  | cons a t ih =>
    obtain ⟨ak, av⟩ := a
    by_cases hk : k = ak
    · rw [getA, if_pos hk] at h
      obtain rfl := Option.some_injective _ h
      rw [hk]
      exact List.mem_cons_self _ _
    · rw [getA, if_neg hk] at h
      exact List.mem_cons_of_mem _ (ih h)

theorem mem_nodup_getA {β : Type} (l : List (Nat × β)) (k : Nat) (v : β)
    (hnd : (l.map Prod.fst).Nodup) (hm : (k, v) ∈ l) : getA k l = some v := by
  induction l with
  | nil => exact absurd hm (List.not_mem_nil _)
  | cons a t ih =>
    obtain ⟨ak, av⟩ := a
    rw [List.map_cons, List.nodup_cons] at hnd
    rcases List.mem_cons.mp hm with h | h
    · have h1 : k = ak := congrArg Prod.fst h
      have h2 : v = av := congrArg Prod.snd h
      rw [getA, if_pos h1, h2]
    · have hk : k ≠ ak := by
        intro hk
        exact hnd.1 (hk ▸ List.mem_map.mpr ⟨(k, v), h, rfl⟩)
      rw [getA, if_neg hk]
      exact ih hnd.2 h

/-- Pass-3 fold over items none of which concerns position `pid`: the
`pid` row and its close-order count are untouched. -/
theorem pass3_foldl_away (prices : List (String × ℚ)) (pid : Nat)
    (L : List (Nat × DBPosition)) (hL : ∀ item ∈ L, item.1 ≠ pid) :
    ∀ acc : SysState × List Eff,
      getA pid (L.foldl (fun acc kv =>
          let (s', e) := processCloseRequest prices acc.1 kv
          (s', acc.2 ++ e)) acc).1.db.test_positions
        = getA pid acc.1.db.test_positions
      ∧ closeCount pid (L.foldl (fun acc kv =>
          let (s', e) := processCloseRequest prices acc.1 kv
          (s', acc.2 ++ e)) acc).2 = closeCount pid acc.2 := by
  induction L with
  | nil => intro acc; exact ⟨rfl, rfl⟩
  | cons a t ih =>
    intro acc
    rw [List.foldl_cons]
    have ha := hL a (List.mem_cons_self a t)
    have iht := ih (fun item hm => hL item (List.mem_cons_of_mem a hm))
    cases hp : getA a.2.symbol prices with
    | none =>
      rw [show (let (s', e) := processCloseRequest prices acc.1 a; (s', acc.2 ++ e))
            = (acc.1, acc.2) by rw [processCloseRequest_none prices acc.1 a hp]; simp]
      exact iht (acc.1, acc.2)
    | some pr =>
      have hstep : (let (s', e) := processCloseRequest prices acc.1 a; (s', acc.2 ++ e))
          = ((processCloseRequest prices acc.1 a).1,
              acc.2 ++ (processCloseRequest prices acc.1 a).2) := rfl
      rw [hstep]
      obtain ⟨h1, h2⟩ := iht ((processCloseRequest prices acc.1 a).1,
        acc.2 ++ (processCloseRequest prices acc.1 a).2)
      constructor
      · rw [h1]
        show getA pid (processCloseRequest prices acc.1 a).1.db.test_positions = _
        rw [processCloseRequest_some_positions prices acc.1 a pr hp,
          getA_updateByKey, if_neg (fun hk => ha hk.symm)]
      · rw [h2]
        show closeCount pid (acc.2 ++ (processCloseRequest prices acc.1 a).2)
          = closeCount pid acc.2
        rw [processCloseRequest_some_eff prices acc.1 a pr hp, closeCount_append,
          closeCount_single_ne pid a.1 acc.1.next_id ha, Nat.add_zero]

/-- Pass-3 fold over a key-distinct item list containing position `pid`
(status `request_close`), with no price available for its symbol: the row
stays untouched and no close order is placed for it. -/
theorem pass3_foldl_hit_none (prices : List (String × ℚ)) (pid : Nat)
    (pos : DBPosition) (hp : getA pos.symbol prices = none) :
    ∀ L : List (Nat × DBPosition), (L.map Prod.fst).Nodup → (pid, pos) ∈ L →
    ∀ acc : SysState × List Eff,
      getA pid acc.1.db.test_positions = some pos →
      getA pid (L.foldl (fun acc kv =>
          let (s', e) := processCloseRequest prices acc.1 kv
          (s', acc.2 ++ e)) acc).1.db.test_positions = some pos
      ∧ closeCount pid (L.foldl (fun acc kv =>
          let (s', e) := processCloseRequest prices acc.1 kv
          (s', acc.2 ++ e)) acc).2 = closeCount pid acc.2 := by
  intro L
  induction L with
  | nil => intro _ hm; exact absurd hm (List.not_mem_nil _)
  | cons a t ih =>
    intro hnd hm acc hacc
    rw [List.map_cons, List.nodup_cons] at hnd
    rw [List.foldl_cons]
    rcases List.mem_cons.mp hm with h | h
    · -- the head item is (pid, pos) itself; no price, so nothing happens
      have ha1 : a.1 = pid := (congrArg Prod.fst h).symm
      have ha2 : a.2 = pos := (congrArg Prod.snd h).symm
      have hpa : getA a.2.symbol prices = none := by rw [ha2]; exact hp
      rw [show (let (s', e) := processCloseRequest prices acc.1 a; (s', acc.2 ++ e))
            = (acc.1, acc.2) by rw [processCloseRequest_none prices acc.1 a hpa]; simp]
      have ht : ∀ item ∈ t, item.1 ≠ pid := by
        intro item hmt hkey
        apply hnd.1
        rw [ha1, ← hkey]
        exact List.mem_map.mpr ⟨item, hmt, rfl⟩
      obtain ⟨h1, h2⟩ := pass3_foldl_away prices pid t ht (acc.1, acc.2)
      exact ⟨h1.trans hacc, h2⟩
    · -- the head item concerns a different key
      have hane : a.1 ≠ pid := by
        intro hkey
        exact hnd.1 (hkey ▸ List.mem_map.mpr ⟨(pid, pos), h, rfl⟩)
      cases hpa : getA a.2.symbol prices with
      | none =>
        rw [show (let (s', e) := processCloseRequest prices acc.1 a; (s', acc.2 ++ e))
              = (acc.1, acc.2) by rw [processCloseRequest_none prices acc.1 a hpa]; simp]
        exact ih hnd.2 h (acc.1, acc.2) hacc
      | some pr =>
        have hstep : (let (s', e) := processCloseRequest prices acc.1 a; (s', acc.2 ++ e))
            = ((processCloseRequest prices acc.1 a).1,
                acc.2 ++ (processCloseRequest prices acc.1 a).2) := rfl
        rw [hstep]
        obtain ⟨h1, h2⟩ := ih hnd.2 h ((processCloseRequest prices acc.1 a).1,
          acc.2 ++ (processCloseRequest prices acc.1 a).2)
          (by rw [processCloseRequest_some_positions prices acc.1 a pr hpa,
                getA_updateByKey, if_neg (fun hk => hane hk.symm)]
              exact hacc)
        refine ⟨h1, h2.trans ?_⟩
        show closeCount pid (acc.2 ++ (processCloseRequest prices acc.1 a).2)
          = closeCount pid acc.2
        rw [processCloseRequest_some_eff prices acc.1 a pr hpa, closeCount_append,
          closeCount_single_ne pid a.1 acc.1.next_id hane, Nat.add_zero]

/-- Pass-3 fold over a key-distinct item list containing position `pid`
(status `request_close`), with a price available for its symbol: exactly
one close order is placed for it across the fold and its status advances
to `closing`. -/
theorem pass3_foldl_hit_some (prices : List (String × ℚ)) (pid : Nat)
    (pos : DBPosition) (pr : ℚ) (hp : getA pos.symbol prices = some pr) :
    ∀ L : List (Nat × DBPosition), (L.map Prod.fst).Nodup → (pid, pos) ∈ L →
    ∀ acc : SysState × List Eff,
      getA pid acc.1.db.test_positions = some pos →
      getA pid (L.foldl (fun acc kv =>
          let (s', e) := processCloseRequest prices acc.1 kv
          (s', acc.2 ++ e)) acc).1.db.test_positions
        = some { pos with status := .closing }
      ∧ closeCount pid (L.foldl (fun acc kv =>
          let (s', e) := processCloseRequest prices acc.1 kv
          (s', acc.2 ++ e)) acc).2 = closeCount pid acc.2 + 1 := by
  intro L
  induction L with
  | nil => intro _ hm; exact absurd hm (List.not_mem_nil _)
  | cons a t ih =>
    intro hnd hm acc hacc
    rw [List.map_cons, List.nodup_cons] at hnd
    rw [List.foldl_cons]
    rcases List.mem_cons.mp hm with h | h
    · have ha1 : a.1 = pid := (congrArg Prod.fst h).symm
      have ha2 : a.2 = pos := (congrArg Prod.snd h).symm
      have hpa : getA a.2.symbol prices = some pr := by rw [ha2]; exact hp
      have hstep : (let (s', e) := processCloseRequest prices acc.1 a; (s', acc.2 ++ e))
          = ((processCloseRequest prices acc.1 a).1,
              acc.2 ++ (processCloseRequest prices acc.1 a).2) := rfl
      rw [hstep]
      have ht : ∀ item ∈ t, item.1 ≠ pid := by
        intro item hmt hkey
        apply hnd.1
        rw [ha1, ← hkey]
        exact List.mem_map.mpr ⟨item, hmt, rfl⟩
      obtain ⟨h1, h2⟩ := pass3_foldl_away prices pid t ht
        ((processCloseRequest prices acc.1 a).1,
          acc.2 ++ (processCloseRequest prices acc.1 a).2)
      constructor
      · rw [h1]
        show getA pid (processCloseRequest prices acc.1 a).1.db.test_positions = _
        rw [processCloseRequest_some_positions prices acc.1 a pr hpa,
          getA_updateByKey, ha1, if_pos rfl, hacc]
        rfl
      · rw [h2]
        show closeCount pid (acc.2 ++ (processCloseRequest prices acc.1 a).2)
          = closeCount pid acc.2 + 1
        rw [processCloseRequest_some_eff prices acc.1 a pr hpa, closeCount_append, ha1,
          closeCount_single_eq]
    · have hane : a.1 ≠ pid := by
        intro hkey
        exact hnd.1 (hkey ▸ List.mem_map.mpr ⟨(pid, pos), h, rfl⟩)
      cases hpa : getA a.2.symbol prices with
      | none =>
        rw [show (let (s', e) := processCloseRequest prices acc.1 a; (s', acc.2 ++ e))
              = (acc.1, acc.2) by rw [processCloseRequest_none prices acc.1 a hpa]; simp]
        exact ih hnd.2 h (acc.1, acc.2) hacc
      | some pr' =>
        have hstep : (let (s', e) := processCloseRequest prices acc.1 a; (s', acc.2 ++ e))
            = ((processCloseRequest prices acc.1 a).1,
                acc.2 ++ (processCloseRequest prices acc.1 a).2) := rfl
        rw [hstep]
        obtain ⟨h1, h2⟩ := ih hnd.2 h ((processCloseRequest prices acc.1 a).1,
          acc.2 ++ (processCloseRequest prices acc.1 a).2)
          (by rw [processCloseRequest_some_positions prices acc.1 a pr' hpa,
                getA_updateByKey, if_neg (fun hk => hane hk.symm)]
              exact hacc)
        refine ⟨h1, h2.trans ?_⟩
        show closeCount pid (acc.2 ++ (processCloseRequest prices acc.1 a).2) + 1
          = closeCount pid acc.2 + 1
        rw [processCloseRequest_some_eff prices acc.1 a pr' hpa, closeCount_append,
          closeCount_single_ne pid a.1 acc.1.next_id hane, Nat.add_zero]

theorem pass3_foldl_keys (prices : List (String × ℚ)) (L : List (Nat × DBPosition)) :
    ∀ acc : SysState × List Eff,
      (L.foldl (fun acc kv =>
          let (s', e) := processCloseRequest prices acc.1 kv
          (s', acc.2 ++ e)) acc).1.db.test_positions.map Prod.fst
        = acc.1.db.test_positions.map Prod.fst := by
  induction L with
  | nil => intro acc; rfl
  | cons a t ih =>
    intro acc
    rw [List.foldl_cons]
    cases hp : getA a.2.symbol prices with
    | none =>
      rw [show (let (s', e) := processCloseRequest prices acc.1 a; (s', acc.2 ++ e))
            = (acc.1, acc.2) by rw [processCloseRequest_none prices acc.1 a hp]; simp]
      exact ih (acc.1, acc.2)
    | some pr =>
      rw [show (let (s', e) := processCloseRequest prices acc.1 a; (s', acc.2 ++ e))
            = ((processCloseRequest prices acc.1 a).1,
                acc.2 ++ (processCloseRequest prices acc.1 a).2) from rfl]
      rw [ih]
      show (processCloseRequest prices acc.1 a).1.db.test_positions.map Prod.fst = _
      rw [processCloseRequest_some_positions prices acc.1 a pr hp, keys_updateByKey]

theorem pass3_keys (prices : List (String × ℚ)) (s : SysState) :
    (pass3 prices s).1.db.test_positions.map Prod.fst
      = s.db.test_positions.map Prod.fst := by
  unfold pass3
  exact pass3_foldl_keys prices _ (s, [])

theorem sync_noFault_positions_keys (s : SysState) (pm : List (String × ℚ)) :
    (sync_state .noFault s pm).state.db.test_positions.map Prod.fst
      = s.db.test_positions.map Prod.fst := by
  rw [sync_state_noFault]
  show (pass4 _).db.test_positions.map Prod.fst = _
  rw [pass4_db, pass3_keys, pass2_positions, pass1_db]

theorem closeCount_of_imports (pid : Nat) (l : List Eff)
    (h : ∀ e ∈ l, ∃ i, e = Eff.imported i) : closeCount pid l = 0 := by
  rw [closeCount, closePlacements_of_imports l h]
  rfl

theorem closeCount_of_cancel_map (pid : Nat) (L : List (Nat × Order)) :
    closeCount pid (L.map fun kv => Eff.canceled kv.1) = 0 := by
  rw [closeCount, closePlacements_of_cancels]
  rfl

/-- One fault-free `sync_state` cycle seen from a `request_close` store
position: with no price for its symbol the row is untouched and no close
order is placed for it; with a price its status advances to `closing` and
exactly one close order is placed. -/
theorem sync_cycle_request_close (s : SysState) (pm : List (String × ℚ))
    (pid : Nat) (pos : DBPosition)
    (h : getA pid s.db.test_positions = some pos)
    (hst : pos.status = .request_close)
    (hnd : (s.db.test_positions.map Prod.fst).Nodup) :
    (getA pos.symbol pm = none →
      getA pid (sync_state .noFault s pm).state.db.test_positions = some pos
      ∧ closeCount pid (sync_state .noFault s pm).effects = 0)
    ∧ (∀ pr, getA pos.symbol pm = some pr →
      getA pid (sync_state .noFault s pm).state.db.test_positions
        = some { pos with status := .closing }
      ∧ closeCount pid (sync_state .noFault s pm).effects = 1) := by
  rw [sync_state_noFault]
  have hpos2 : (pass2 .noFault (pass1 s).1).1.db.test_positions = s.db.test_positions := by
    rw [pass2_positions, pass1_db]
  have hmem : (pid, pos) ∈ scanPositions .request_close (pass2 .noFault (pass1 s).1).1.db := by
    rw [scanPositions, hpos2]
    refine List.mem_filter.mpr ⟨getA_mem _ _ _ h, by simp [hst]⟩
  have hndscan : ((scanPositions .request_close
      (pass2 .noFault (pass1 s).1).1.db).map Prod.fst).Nodup := by
    rw [scanPositions, hpos2]
    exact List.Nodup.sublist (List.Sublist.map Prod.fst (List.filter_sublist _)) hnd
  have hget2 : getA pid (pass2 .noFault (pass1 s).1).1.db.test_positions = some pos := by
    rw [hpos2]; exact h
  have hc1 : closeCount pid (pass1 s).2 = 0 := closeCount_of_imports pid _ (pass1_eff s)
  have hc2 : closeCount pid (pass2 .noFault (pass1 s).1).2 = 0 := by
    rw [pass2_eff]
    exact closeCount_of_cancel_map pid _
  constructor
  · intro hp
    obtain ⟨h1, h2⟩ := pass3_foldl_hit_none pm pid pos hp
      (scanPositions .request_close (pass2 .noFault (pass1 s).1).1.db) hndscan hmem
      ((pass2 .noFault (pass1 s).1).1, []) hget2
    constructor
    · show getA pid
        (pass4 (pass3 pm (pass2 .noFault (pass1 s).1).1).1).db.test_positions = some pos
      rw [pass4_db]
      exact h1
    · show closeCount pid ((pass1 s).2 ++ (pass2 .noFault (pass1 s).1).2
        ++ (pass3 pm (pass2 .noFault (pass1 s).1).1).2) = 0
      have h2' : closeCount pid (pass3 pm (pass2 .noFault (pass1 s).1).1).2 = 0 := h2
      rw [closeCount_append, closeCount_append, hc1, hc2, h2']
  · intro pr hp
    obtain ⟨h1, h2⟩ := pass3_foldl_hit_some pm pid pos pr hp
      (scanPositions .request_close (pass2 .noFault (pass1 s).1).1.db) hndscan hmem
      ((pass2 .noFault (pass1 s).1).1, []) hget2
    constructor
    · show getA pid
        (pass4 (pass3 pm (pass2 .noFault (pass1 s).1).1).1).db.test_positions
        = some { pos with status := .closing }
      rw [pass4_db]
      exact h1
    · show closeCount pid ((pass1 s).2 ++ (pass2 .noFault (pass1 s).1).2
        ++ (pass3 pm (pass2 .noFault (pass1 s).1).1).2) = 1
      have h2' : closeCount pid (pass3 pm (pass2 .noFault (pass1 s).1).1).2 = 1 := h2
      rw [closeCount_append, closeCount_append, hc1, hc2, h2']

/-- One fault-free `sync_state` cycle seen from a store position whose
status is not `request_close`: the row is untouched and no close order is
placed for it. -/
theorem sync_cycle_keep (s : SysState) (pm : List (String × ℚ))
    (pid : Nat) (pos : DBPosition)
    (h : getA pid s.db.test_positions = some pos)
    (hst : pos.status ≠ .request_close)
    (hnd : (s.db.test_positions.map Prod.fst).Nodup) :
    getA pid (sync_state .noFault s pm).state.db.test_positions = some pos
    ∧ closeCount pid (sync_state .noFault s pm).effects = 0 := by
  rw [sync_state_noFault]
  have hpos2 : (pass2 .noFault (pass1 s).1).1.db.test_positions = s.db.test_positions := by
    rw [pass2_positions, pass1_db]
  have haway : ∀ item ∈ scanPositions .request_close (pass2 .noFault (pass1 s).1).1.db,
      item.1 ≠ pid := by
    intro item hmi hkey
    rw [scanPositions, hpos2] at hmi
    obtain ⟨hin, hfil⟩ := List.mem_filter.mp hmi
    have hsome : getA item.1 s.db.test_positions = some item.2 := by
      obtain ⟨i1, i2⟩ := item
      exact mem_nodup_getA _ _ _ hnd hin
    rw [hkey, h] at hsome
    obtain rfl := Option.some_injective _ hsome
    exact hst (by simpa using hfil)
  have hget2 : getA pid (pass2 .noFault (pass1 s).1).1.db.test_positions = some pos := by
    rw [hpos2]; exact h
  obtain ⟨h1, h2⟩ := pass3_foldl_away pm pid
    (scanPositions .request_close (pass2 .noFault (pass1 s).1).1.db) haway
    ((pass2 .noFault (pass1 s).1).1, [])
  have hc1 : closeCount pid (pass1 s).2 = 0 := closeCount_of_imports pid _ (pass1_eff s)
  have hc2 : closeCount pid (pass2 .noFault (pass1 s).1).2 = 0 := by
    rw [pass2_eff]
    exact closeCount_of_cancel_map pid _
  constructor
  · show getA pid
      (pass4 (pass3 pm (pass2 .noFault (pass1 s).1).1).1).db.test_positions = some pos
    rw [pass4_db]
    exact h1.trans hget2
  · show closeCount pid ((pass1 s).2 ++ (pass2 .noFault (pass1 s).1).2
      ++ (pass3 pm (pass2 .noFault (pass1 s).1).1).2) = 0
    have h2' : closeCount pid (pass3 pm (pass2 .noFault (pass1 s).1).1).2 = 0 := h2
    rw [closeCount_append, closeCount_append, hc1, hc2, h2']

theorem runCycles_foldl_acc (cycles : List (List (String × ℚ))) :
    ∀ (s : SysState) (e0 : List Eff),
      (cycles.foldl (fun acc pm =>
        let r := sync_state .noFault acc.1 pm
        (r.state, acc.2 ++ r.effects)) (s, e0))
      = ((runCycles s cycles).1, e0 ++ (runCycles s cycles).2) := by
  induction cycles with
  | nil => intro s e0; simp [runCycles]
  | cons pm rest ih =>
    intro s e0
    rw [List.foldl_cons]
    show (rest.foldl _ ((sync_state .noFault s pm).state,
      e0 ++ (sync_state .noFault s pm).effects)) = _
    rw [ih]
    rw [show runCycles s (pm :: rest)
        = rest.foldl (fun acc pm =>
            let r := sync_state .noFault acc.1 pm
            (r.state, acc.2 ++ r.effects))
          ((sync_state .noFault s pm).state, [] ++ (sync_state .noFault s pm).effects) from rfl]
    rw [ih]
    simp

theorem runCycles_cons (s : SysState) (pm : List (String × ℚ))
    (rest : List (List (String × ℚ))) :
    runCycles s (pm :: rest)
      = ((runCycles (sync_state .noFault s pm).state rest).1,
         (sync_state .noFault s pm).effects
           ++ (runCycles (sync_state .noFault s pm).state rest).2) := by
  rw [show runCycles s (pm :: rest)
      = rest.foldl (fun acc pm =>
          let r := sync_state .noFault acc.1 pm
          (r.state, acc.2 ++ r.effects))
        ((sync_state .noFault s pm).state, [] ++ (sync_state .noFault s pm).effects) from rfl]
  rw [runCycles_foldl_acc]
  simp

/-- Any number of fault-free cycles keeps a non-`request_close` row intact
and places no close order for it. -/
theorem runCycles_keep (cycles : List (List (String × ℚ))) :
    ∀ (s : SysState) (pid : Nat) (pos : DBPosition),
      getA pid s.db.test_positions = some pos →
      pos.status ≠ .request_close →
      (s.db.test_positions.map Prod.fst).Nodup →
      getA pid (runCycles s cycles).1.db.test_positions = some pos
      ∧ closeCount pid (runCycles s cycles).2 = 0 := by
  induction cycles with
  | nil => intro s pid pos h _ _; exact ⟨h, rfl⟩
  | cons pm rest ih =>
    intro s pid pos h hst hnd
    rw [runCycles_cons]
    obtain ⟨h1, h2⟩ := sync_cycle_keep s pm pid pos h hst hnd
    have hnd' : ((sync_state .noFault s pm).state.db.test_positions.map Prod.fst).Nodup := by
      rw [sync_noFault_positions_keys]
      exact hnd
    obtain ⟨h1', h2'⟩ := ih (sync_state .noFault s pm).state pid pos h1 hst hnd'
    exact ⟨h1', by rw [closeCount_append, h2, h2', Nat.add_zero]⟩

/-- C7: a position externally set to `request_close` keeps that status and
triggers no order while no price for its symbol is available; once a
cycle sees a price, its status advances to `closing` and exactly one
close order is placed for it across all cycles. -/
theorem C7_close_request_exactly_once (cycles : List (List (String × ℚ))) :
    ∀ (s : SysState) (pid : Nat) (pos : DBPosition),
      getA pid s.db.test_positions = some pos →
      pos.status = .request_close →
      (s.db.test_positions.map Prod.fst).Nodup →
      closeCount pid (runCycles s cycles).2
        = (if cycles.any (fun pm => (getA pos.symbol pm).isSome) then 1 else 0)
      ∧ (cycles.all (fun pm => (getA pos.symbol pm).isNone) →
          getA pid (runCycles s cycles).1.db.test_positions = some pos)
      ∧ (cycles.any (fun pm => (getA pos.symbol pm).isSome) = true →
          getA pid (runCycles s cycles).1.db.test_positions
            = some { pos with status := .closing }) := by
  induction cycles with
  | nil =>
    intro s pid pos h hst hnd
    refine ⟨by simp [runCycles]; rfl, fun _ => h, fun hany => absurd hany (by simp)⟩
  | cons pm rest ih =>
    intro s pid pos h hst hnd
    rw [runCycles_cons]
    have hnd' : ((sync_state .noFault s pm).state.db.test_positions.map Prod.fst).Nodup := by
      rw [sync_noFault_positions_keys]
      exact hnd
    cases hp : getA pos.symbol pm with
    | none =>
      obtain ⟨h1, h2⟩ := (sync_cycle_request_close s pm pid pos h hst hnd).1 hp
      obtain ⟨a', b', c'⟩ := ih (sync_state .noFault s pm).state pid pos h1 hst hnd'
      have hhead : ((getA pos.symbol pm).isSome : Bool) = false := by rw [hp]; rfl
      refine ⟨?_, ?_, ?_⟩
      · rw [closeCount_append, h2, Nat.zero_add, a', List.any_cons, hhead]
        simp
      · intro hall
        rw [List.all_cons] at hall
        exact b' (Bool.and_elim_right hall)
      · intro hany
        rw [List.any_cons, hhead, Bool.false_or] at hany
        exact c' hany
    | some pr =>
      obtain ⟨h1, h2⟩ := (sync_cycle_request_close s pm pid pos h hst hnd).2 pr hp
      obtain ⟨h1', h2'⟩ := runCycles_keep rest (sync_state .noFault s pm).state pid
        { pos with status := .closing } h1 (by simp) hnd'
      have hhead : ((getA pos.symbol pm).isSome : Bool) = true := by rw [hp]; rfl
      refine ⟨?_, ?_, fun _ => h1'⟩
      · rw [closeCount_append, h2, h2', Nat.add_zero, List.any_cons, hhead]
        simp
      · intro hall
        rw [List.all_cons] at hall
        have := Bool.and_elim_left hall
        rw [hp] at this
        exact absurd this (by simp)

/-- Witness for C7: the zombie `request_close` position sees no price in
cycle 1, a price in cycles 2 and 3 — exactly one close order is placed
and the position ends in status `closing`. -/
theorem C7_witness :
    closeCount 0 (runCycles exStateC3
      [[], [("BTC/USDT", 100)], [("BTC/USDT", 100)]]).2 = 1
    ∧ (getA 0 (runCycles exStateC3
        [[], [("BTC/USDT", 100)], [("BTC/USDT", 100)]]).1.db.test_positions).map
          (fun p => p.status) = some PosStatus.closing := by
  have h := C7_close_request_exactly_once [[], [("BTC/USDT", 100)], [("BTC/USDT", 100)]]
    exStateC3 0 exZombie (by decide) rfl (by decide)
  constructor
  · rw [h.1]
    decide
  · rw [h.2.2 (by decide)]
    rfl

theorem setA_setA {α β : Type} [DecidableEq α] (k : α) (v v' : β) (l : List (α × β)) :
    setA k v (setA k v' l) = setA k v l := by
  induction l with
  | nil => simp [setA]
  | cons a t ih =>
    by_cases h : k = a.1 <;> simp [setA, h, ih]

theorem getA_setA_self {α β : Type} [DecidableEq α] (k : α) (v : β) (l : List (α × β)) :
    getA k (setA k v l) = some v := by
  induction l with
  | nil => simp [setA, getA]
  | cons a t ih =>
    by_cases h : k = a.1 <;> simp [setA, getA, h, ih]

theorem getA_setA_ne {α β : Type} [DecidableEq α] (k k' : α) (v : β) (l : List (α × β))
    (h : k' ≠ k) : getA k' (setA k v l) = getA k' l := by
  induction l with
  | nil => simp [setA, getA, h]
  | cons a t ih =>
    by_cases hk : k = a.1
    · subst hk
      simp [setA, getA, h, ih]
    · by_cases hk' : k' = a.1 <;> simp [setA, getA, hk, hk', ih]

theorem eraseA_sublist {α β : Type} [DecidableEq α] (k : α) (l : List (α × β)) :
    List.Sublist (eraseA k l) l := by
  induction l with
  | nil => simp [eraseA]
  | cons a t ih =>
    by_cases h : k = a.1
    · rw [eraseA, if_pos h]
      exact (List.sublist_cons_self a t)
    · rw [eraseA, if_neg h]
      exact ih.cons₂ a

theorem getA_eq_none_iff {α β : Type} [DecidableEq α] (k : α) (l : List (α × β)) :
    getA k l = none ↔ k ∉ l.map Prod.fst := by
  induction l with
  | nil => simp [getA]
  | cons a t ih =>
    by_cases h : k = a.1 <;> simp [getA, h, ih]

theorem getA_none_of_sublist {α β : Type} [DecidableEq α] (k : α)
    {l l' : List (α × β)} (hs : List.Sublist l' l) (h : getA k l = none) :
    getA k l' = none := by
  rw [getA_eq_none_iff] at h ⊢
  intro hk
  exact h ((hs.map Prod.fst).subset hk)

theorem getA_eraseA_self {α β : Type} [DecidableEq α] (k : α) (l : List (α × β))
    (hnd : (l.map Prod.fst).Nodup) : getA k (eraseA k l) = none := by
  induction l with
  | nil => simp [eraseA, getA]
  | cons a t ih =>
    rw [List.map_cons, List.nodup_cons] at hnd
    by_cases h : k = a.1
    · rw [eraseA, if_pos h, getA_eq_none_iff]
      rw [h]
      exact hnd.1
    · rw [eraseA, if_neg h, getA, if_neg h]
      exact ih hnd.2

theorem keys_setA_fresh {α β : Type} [DecidableEq α] (k : α) (v : β) (l : List (α × β))
    (h : k ∉ l.map Prod.fst) :
    (setA k v l).map Prod.fst = l.map Prod.fst ++ [k] := by
  induction l with
  | nil => simp [setA]
  | cons a t ih =>
    rw [List.map_cons] at h
    have h1 : k ≠ a.1 := fun hk => h (hk ▸ List.mem_cons_self _ _)
    have h2 : k ∉ t.map Prod.fst := fun hk => h (List.mem_cons_of_mem _ hk)
    rw [setA, if_neg h1, List.map_cons, List.map_cons, ih h2]
    rfl

theorem find?_append_right {α : Type} (l : List α) (x : α) (p : α → Bool)
    (h : ∀ y ∈ l, p y = false) :
    (l ++ [x]).find? p = if p x then some x else none := by
  induction l with
  | nil => cases hp : p x <;> simp [List.find?, hp]
  | cons a t ih =>
    rw [List.cons_append, List.find?_cons, h a (List.mem_cons_self a t)]
    exact ih (fun y hy => h y (List.mem_cons_of_mem a hy))

/-! ### `_execute_fill` field lemmas -/

theorem execute_fill_pending (sim : PaperTradingSimulator) (order : Order) (fp : ℚ) :
    (sim.execute_fill order fp).sim.pending_orders
      = eraseA order.order_id sim.pending_orders := by
  unfold PaperTradingSimulator.execute_fill
  cases order.side <;> dsimp only <;> (repeat' split) <;> rfl

theorem execute_fill_buy_no_pos_positions (sim : PaperTradingSimulator) (order : Order)
    (fp : ℚ) (hs : order.side = .buy) (hg : getA order.symbol sim.positions = none) :
    (sim.execute_fill order fp).sim.positions
      = setA order.symbol
          { position_id := order.order_id, symbol := order.symbol, side := .long,
            entry_price := fp, quantity := order.amount, status := .open_ }
          sim.positions := by
  unfold PaperTradingSimulator.execute_fill
  rw [hs]
  simp [hg]

theorem execute_fill_sell_closed_positions (sim : PaperTradingSimulator) (order : Order)
    (fp : ℚ) (hs : order.side = .sell) (pos : SimPosition)
    (hg : getA order.symbol sim.positions = some pos)
    (hq : pos.quantity - order.amount ≤ 0) :
    (sim.execute_fill order fp).sim.positions = eraseA order.symbol sim.positions := by
  unfold PaperTradingSimulator.execute_fill
  rw [hs]
  simp only [hg]
  rw [if_pos hq]

theorem can_open_position_iff (s : SysState) :
    can_open_position s = true ↔ s.current_position = none ∧ s.pending_orders = [] := by
  unfold can_open_position
  cases s.current_position <;> simp

theorem place_limit_order_proj (s : SysState) (sym : String) (side : Side)
    (cp am : ℚ) (k : OrderKind) :
    (place_limit_order s sym side cp am k).1.order_id = s.next_id
    ∧ (place_limit_order s sym side cp am k).1.otype = k
    ∧ (place_limit_order s sym side cp am k).1.symbol = sym
    ∧ (place_limit_order s sym side cp am k).1.side = side
    ∧ (place_limit_order s sym side cp am k).1.amount = am
    ∧ (place_limit_order s sym side cp am k).2.simulator.pending_orders
        = setA s.next_id (place_limit_order s sym side cp am k).1 s.simulator.pending_orders
    ∧ (place_limit_order s sym side cp am k).2.pending_orders
        = setA s.next_id (place_limit_order s sym side cp am k).1 s.pending_orders
    ∧ (place_limit_order s sym side cp am k).2.simulator.positions = s.simulator.positions
    ∧ (place_limit_order s sym side cp am k).2.simulator.filled_orders
        = s.simulator.filled_orders
    ∧ (place_limit_order s sym side cp am k).2.current_position = s.current_position
    ∧ (place_limit_order s sym side cp am k).2.next_id = s.next_id + 1 := by
  unfold place_limit_order PaperTradingSimulator.place_limit_order
  cases side <;> simp [setA_setA]

/-- `check_order_status` on a tick that fills nothing (unknown id or price
not crossing the limit) leaves the state unchanged. -/
theorem check_order_status_no_fill (s : SysState) (oid : Nat) (p : ℚ)
    (h : s.simulator.simulate_fill oid p = (false, { sim := s.simulator })) :
    (check_order_status s oid (some p)).state = s := by
  unfold check_order_status
  simp only [h]
  rw [if_neg (by decide)]

/-- The state after `check_order_status` fills order `oid`, projected onto
the fields the single-position invariant tracks. -/
theorem check_order_status_fill_proj (s : SysState) (oid : Nat) (p : ℚ)
    (lo : Order) (ho : getA oid s.pending_orders = some lo)
    (out : FillOutcome) (hfill : s.simulator.simulate_fill oid p = (true, out))
    (fo : Order)
    (hfind : out.sim.filled_orders.find? (fun o => o.order_id = oid) = some fo) :
    (check_order_status s oid (some p)).state.simulator = out.sim
    ∧ (check_order_status s oid (some p)).state.pending_orders
        = eraseA oid s.pending_orders
    ∧ (check_order_status s oid (some p)).state.next_id = s.next_id
    ∧ (check_order_status s oid (some p)).state.current_position
        = (match lo.otype with
           | .entry =>
             (match getA fo.symbol out.sim.positions with
              | some position => some position
              | none => s.current_position)
           | .exit => none) := by
  unfold check_order_status
  simp only [hfill, hfind, ho]
  cases hot : lo.otype with
  | entry =>
    cases hg : getA fo.symbol out.sim.positions with
    | some position => simp [PaperTradingSimulator.get_position, hg]
    | none => simp [PaperTradingSimulator.get_position, hg]
  | exit => simp [PaperTradingSimulator.closedPositionsAttr]

/-- Operations of the TEST-mode trading loop relevant to the
single-position rule: an entry placement guarded by `can_open_position`
(as `TradingBot.execute_trade` does before calling `place_limit_order`),
a close via `close_position`, and an order-status check on a tick. -/
inductive Op where
  | placeEntry (symbol : String) (side : Side) (price amount : ℚ)
  | closePos (price : ℚ)
  | tick (oid : Nat) (price : ℚ)

/-- One step of the guarded trading loop. -/
def stepOp (s : SysState) : Op → SysState
  | .placeEntry symbol side price amount =>
    if can_open_position s then
      (place_limit_order s symbol side price amount .entry).2
    else s
  | .closePos price => close_position s price
  | .tick oid price => (check_order_status s oid (some price)).state

/-- Run a sequence of guarded trading-loop operations. -/
def runOps (s : SysState) (ops : List Op) : SysState := ops.foldl stepOp s

/-- Fresh TEST-mode system: empty tables, no position, no pending orders. -/
def initSys (balance : ℚ) : SysState :=
  { simulator := PaperTradingSimulator.init balance,
    current_position := none,
    pending_orders := [],
    db := { test_orders := [], test_positions := [], test_account_balance := some balance },
    next_id := 0 }

/-- Inductive invariant of the guarded trading loop: the manager's and the
simulator's pending maps coincide, ids are fresh and unique, at most one
simulator position exists and it is tied to `current_position`, a pending
entry order exists only alone in an idle system, and pending exit orders
are sells matching the tracked position. -/
structure Inv (s : SysState) : Prop where
  pend_eq : s.pending_orders = s.simulator.pending_orders
  pend_nodup : (s.pending_orders.map Prod.fst).Nodup
  pend_lt : ∀ kv ∈ s.pending_orders, kv.1 < s.next_id
  filled_lt : ∀ fo ∈ s.simulator.filled_orders, fo.order_id < s.next_id
  filled_fresh : ∀ fo ∈ s.simulator.filled_orders, getA fo.order_id s.pending_orders = none
  cp_none : s.current_position = none → s.simulator.positions = []
  cp_some : ∀ p, s.current_position = some p → p.side = .long ∧
      ∃ sp, s.simulator.positions = [(p.symbol, sp)] ∧ sp.quantity = p.quantity
  entry_pend : ∀ kv ∈ s.pending_orders, kv.2.otype = .entry →
      s.current_position = none ∧ s.pending_orders = [kv]
  key_id : ∀ kv ∈ s.pending_orders, kv.2.order_id = kv.1
  exit_pend : ∀ kv ∈ s.pending_orders, kv.2.otype = .exit →
      kv.2.side = .sell ∧ ∀ sp ∈ s.simulator.positions,
        kv.2.symbol = sp.1 ∧ kv.2.amount = sp.2.quantity
  pos_open : ∀ kv ∈ s.simulator.positions, kv.2.status = .open_

theorem inv_init (b : ℚ) : Inv (initSys b) := by
  constructor <;> intros <;> simp_all [initSys, PaperTradingSimulator.init]

theorem inv_placeEntry (s : SysState) (sym : String) (side : Side) (pr am : ℚ)
    (hInv : Inv s) : Inv (stepOp s (.placeEntry sym side pr am)) := by
  unfold stepOp
  dsimp only
  by_cases hg : can_open_position s = true
  · rw [if_pos hg]
    obtain ⟨hcp, hpd⟩ := (can_open_position_iff s).mp hg
    have hsimpd : s.simulator.pending_orders = [] := hInv.pend_eq ▸ hpd
    obtain ⟨hid, hty, hsy, hsd, ham, hsp, hmp, hpos, hfil, hcpp, hnid⟩ :=
      place_limit_order_proj s sym side pr am .entry
    set r := place_limit_order s sym side pr am .entry with hr
    have hpend : r.2.pending_orders = [(s.next_id, r.1)] := by
      rw [hmp, hpd]; rfl
    have hsimpend : r.2.simulator.pending_orders = [(s.next_id, r.1)] := by
      rw [hsp, hsimpd]; rfl
    have hposes : r.2.simulator.positions = [] := by
      rw [hpos]; exact hInv.cp_none hcp
    refine ⟨?_, ?_, ?_, ?_, ?_, ?_, ?_, ?_, ?_, ?_, ?_⟩
    · rw [hpend, hsimpend]
    · rw [hpend]; simp
    · intro kv hkv
      rw [hpend] at hkv
      rw [List.mem_singleton.mp hkv, hnid]
      exact Nat.lt_succ_self s.next_id
    · intro fo hfo
      rw [hfil] at hfo
      rw [hnid]
      exact Nat.lt_succ_of_lt (hInv.filled_lt fo hfo)
    · intro fo hfo
      rw [hfil] at hfo
      rw [hpend, getA]
      rw [if_neg (fun h => Nat.lt_irrefl _ (h ▸ hInv.filled_lt fo hfo))]
      rfl
    · intro _
      exact hposes
    · intro p hp
      rw [hcpp, hcp] at hp
      exact absurd hp (by simp)
    · intro kv hkv _
      rw [hpend] at hkv
      rw [List.mem_singleton.mp hkv]
      rw [hcpp, hpend]
      exact ⟨hcp, rfl⟩
    · intro kv hkv
      rw [hpend] at hkv
      rw [List.mem_singleton.mp hkv]
      exact hid
    · intro kv hkv hty'
      rw [hpend] at hkv
      rw [List.mem_singleton.mp hkv] at hty'
      rw [hty] at hty'
      exact absurd hty' (by simp)
    · intro kv hkv
      rw [hposes] at hkv
      exact absurd hkv (List.not_mem_nil kv)
  · rw [if_neg hg]
    exact hInv

theorem inv_closePos (s : SysState) (pr : ℚ) (hInv : Inv s) :
    Inv (stepOp s (.closePos pr)) := by
  unfold stepOp close_position
  dsimp only
  cases hcp : s.current_position with
  | none => exact hInv
  | some pos =>
    obtain ⟨hlong, sp, hposes, hq⟩ := hInv.cp_some pos hcp
    dsimp only
    rw [hlong]
    simp only [reduceIte]
    obtain ⟨hid, hty, hsy, hsd, ham, hsp, hmp, hpos, hfil, hcpp, hnid⟩ :=
      place_limit_order_proj s pos.symbol .sell (pr * (995 / 1000)) pos.quantity .exit
    set r := place_limit_order s pos.symbol .sell (pr * (995 / 1000)) pos.quantity .exit
      with hr
    have hfreshkey : s.next_id ∉ s.pending_orders.map Prod.fst := by
      intro hmem
      obtain ⟨kv, hkv, hkeq⟩ := List.mem_map.mp hmem
      exact Nat.lt_irrefl _ (hkeq ▸ hInv.pend_lt kv hkv)
    have hpend : r.2.pending_orders = setA s.next_id r.1 s.pending_orders := hmp
    have hmemtotal : ∀ kv ∈ r.2.pending_orders, kv = (s.next_id, r.1) ∨ kv ∈ s.pending_orders := by
      intro kv hkv
      rw [hpend] at hkv
      exact mem_setA _ _ _ kv hkv
    refine ⟨?_, ?_, ?_, ?_, ?_, ?_, ?_, ?_, ?_, ?_, ?_⟩
    · rw [hpend, hsp, hInv.pend_eq]
    · rw [hpend, keys_setA_fresh _ _ _ hfreshkey]
      refine List.Nodup.append hInv.pend_nodup (by simp) ?_
      intro x hx hx'
      rw [List.mem_singleton.mp hx'] at hx
      exact hfreshkey hx
    · intro kv hkv
      rw [hnid]
      rcases hmemtotal kv hkv with h | h
      · rw [h]; exact Nat.lt_succ_self _
      · exact Nat.lt_succ_of_lt (hInv.pend_lt kv h)
    · intro fo hfo
      rw [hfil] at hfo
      rw [hnid]
      exact Nat.lt_succ_of_lt (hInv.filled_lt fo hfo)
    · intro fo hfo
      rw [hfil] at hfo
      rw [hpend, getA_setA_ne _ _ _ _ (fun h => Nat.lt_irrefl _ (h ▸ hInv.filled_lt fo hfo))]
      exact hInv.filled_fresh fo hfo
    · intro h
      rw [hcpp, hcp] at h
      exact absurd h (by simp)
    · intro q hq'
      rw [hcpp, hcp] at hq'
      obtain rfl := Option.some_injective _ hq'
      rw [hpos]
      exact ⟨hlong, sp, hposes, hq⟩
    · intro kv hkv hty'
      rcases hmemtotal kv hkv with h | h
      · rw [h] at hty'
        rw [hty] at hty'
        exact absurd hty' (by simp)
      · obtain ⟨hnone, _⟩ := hInv.entry_pend kv h hty'
        rw [hcp] at hnone
        exact absurd hnone (by simp)
    · intro kv hkv
      rcases hmemtotal kv hkv with h | h
      · rw [h]; exact hid
      · exact hInv.key_id kv h
    · intro kv hkv hty'
      rw [hpos]
      rcases hmemtotal kv hkv with h | h
      · subst h
        refine ⟨hsd, ?_⟩
        intro spv hspv
        rw [hposes] at hspv
        rw [List.mem_singleton.mp hspv]
        exact ⟨hsy, by rw [ham, hq]⟩
      · obtain ⟨hsell, hmatch⟩ := hInv.exit_pend kv h hty'
        exact ⟨hsell, hmatch⟩
    · intro kv hkv
      rw [hpos] at hkv
      exact hInv.pos_open kv hkv

theorem inv_tick (s : SysState) (oid : Nat) (pr : ℚ) (hInv : Inv s) :
    Inv (stepOp s (.tick oid pr)) := by
  unfold stepOp
  dsimp only
  cases hlo : getA oid s.pending_orders with
  | none =>
    have hsim : getA oid s.simulator.pending_orders = none := by
      rw [← hInv.pend_eq]; exact hlo
    rw [check_order_status_no_fill s oid pr (simulate_fill_unknown s.simulator oid pr hsim)]
    exact hInv
  | some lo =>
    have hsim : getA oid s.simulator.pending_orders = some lo := by
      rw [← hInv.pend_eq]; exact hlo
    have hmemlo : (oid, lo) ∈ s.pending_orders := getA_mem _ _ _ hlo
    by_cases hcond : (lo.side = .buy ∧ pr ≤ lo.price) ∨ (lo.side = .sell ∧ lo.price ≤ pr)
    case neg =>
      rw [check_order_status_no_fill s oid pr
        (simulate_fill_no_fill s.simulator oid pr lo hsim hcond)]
      exact hInv
    case pos =>
      have hfill := simulate_fill_fills s.simulator oid pr lo hsim hcond
      have hoidid : lo.order_id = oid := hInv.key_id (oid, lo) hmemlo
      have hfoeq : (s.simulator.execute_fill lo pr).sim.filled_orders
          = s.simulator.filled_orders
            ++ [{ lo with status := .filled, fill_price := some pr }] :=
        execute_fill_filled_orders s.simulator lo pr
      have hold : ∀ y ∈ s.simulator.filled_orders, (decide (y.order_id = oid)) = false := by
        intro y hy
        simp only [decide_eq_false_iff_not]
        intro heq
        have hfr := hInv.filled_fresh y hy
        rw [heq, hlo] at hfr
        exact absurd hfr (by simp)
      have hfind : (s.simulator.execute_fill lo pr).sim.filled_orders.find?
          (fun o => o.order_id = oid)
          = some { lo with status := .filled, fill_price := some pr } := by
        rw [hfoeq, find?_append_right _ _ _ hold]
        simp [hoidid]
      obtain ⟨hsim', hpend', hnid', hcp'⟩ :=
        check_order_status_fill_proj s oid pr lo hlo _ hfill _ hfind
      set s' := (check_order_status s oid (some pr)).state with hs'
      have hSP' : s'.simulator.pending_orders = eraseA oid s.pending_orders := by
        rw [hsim', execute_fill_pending, hoidid, ← hInv.pend_eq]
      have hfil' : s'.simulator.filled_orders
          = s.simulator.filled_orders
            ++ [{ lo with status := .filled, fill_price := some pr }] := by
        rw [hsim', hfoeq]
      have f_pend_eq : s'.pending_orders = s'.simulator.pending_orders := by
        rw [hpend', hSP']
      have f_nodup : (s'.pending_orders.map Prod.fst).Nodup := by
        rw [hpend']
        exact List.Nodup.sublist ((eraseA_sublist oid s.pending_orders).map Prod.fst)
          hInv.pend_nodup
      have f_pend_lt : ∀ kv ∈ s'.pending_orders, kv.1 < s'.next_id := by
        intro kv hkv
        rw [hpend'] at hkv
        rw [hnid']
        exact hInv.pend_lt kv ((eraseA_sublist oid s.pending_orders).subset hkv)
      have f_filled_lt : ∀ fo ∈ s'.simulator.filled_orders, fo.order_id < s'.next_id := by
        intro fo hfo
        rw [hfil'] at hfo
        rw [hnid']
        rcases List.mem_append.mp hfo with h | h
        · exact hInv.filled_lt fo h
        · rw [List.mem_singleton.mp h]
          show lo.order_id < s.next_id
          rw [hoidid]
          exact hInv.pend_lt (oid, lo) hmemlo
      have f_filled_fresh : ∀ fo ∈ s'.simulator.filled_orders,
          getA fo.order_id s'.pending_orders = none := by
        intro fo hfo
        rw [hfil'] at hfo
        rw [hpend']
        rcases List.mem_append.mp hfo with h | h
        · exact getA_none_of_sublist _ (eraseA_sublist _ _) (hInv.filled_fresh fo h)
        · rw [List.mem_singleton.mp h]
          show getA lo.order_id (eraseA oid s.pending_orders) = none
          rw [hoidid]
          exact getA_eraseA_self oid s.pending_orders hInv.pend_nodup
      have f_key_id : ∀ kv ∈ s'.pending_orders, kv.2.order_id = kv.1 := by
        intro kv hkv
        rw [hpend'] at hkv
        exact hInv.key_id kv ((eraseA_sublist _ _).subset hkv)
      cases hot : lo.otype with
      | entry =>
        obtain ⟨hcpn, hsingle⟩ := hInv.entry_pend (oid, lo) hmemlo hot
        have hposnil : s.simulator.positions = [] := hInv.cp_none hcpn
        have hpendnil : s'.pending_orders = [] := by
          rw [hpend', hsingle]
          simp [eraseA]
        cases hsd : lo.side with
        | buy =>
          have hgnone : getA lo.symbol s.simulator.positions = none := by
            rw [hposnil]; rfl
          have hpos' : (s.simulator.execute_fill lo pr).sim.positions
              = [(lo.symbol, ⟨lo.order_id, lo.symbol, .long, pr, lo.amount, .open_,
                  none, none, none, none⟩)] := by
            rw [execute_fill_buy_no_pos_positions s.simulator lo pr hsd hgnone, hposnil]
            rfl
          have hcpv : s'.current_position
              = some ⟨lo.order_id, lo.symbol, .long, pr, lo.amount, .open_,
                  none, none, none, none⟩ := by
            rw [hcp']
            simp only [hot]
            rw [hpos']
            simp [getA]
          refine ⟨f_pend_eq, f_nodup, f_pend_lt, f_filled_lt, f_filled_fresh,
            ?_, ?_, ?_, f_key_id, ?_, ?_⟩
          · intro h
            rw [hcpv] at h
            exact absurd h (by simp)
          · intro p hp
            rw [hcpv] at hp
            obtain rfl := Option.some_injective _ hp
            refine ⟨rfl, ⟨lo.order_id, lo.symbol, .long, pr, lo.amount, .open_,
              none, none, none, none⟩, ?_, rfl⟩
            rw [hsim', hpos']
          · intro kv hkv
            rw [hpendnil] at hkv
            exact absurd hkv (List.not_mem_nil kv)
          · intro kv hkv
            rw [hpendnil] at hkv
            exact absurd hkv (List.not_mem_nil kv)
          · intro kv hkv
            rw [hsim', hpos'] at hkv
            rw [List.mem_singleton.mp hkv]
        | sell =>
          have hgnone : getA lo.symbol s.simulator.positions = none := by
            rw [hposnil]; rfl
          have hpos' : (s.simulator.execute_fill lo pr).sim.positions = [] := by
            rw [(execute_fill_sell_no_pos s.simulator lo pr hsd hgnone).2.1, hposnil]
          have hcpv : s'.current_position = none := by
            rw [hcp']
            simp only [hot]
            rw [hpos']
            simp only [getA]
            exact hcpn
          refine ⟨f_pend_eq, f_nodup, f_pend_lt, f_filled_lt, f_filled_fresh,
            ?_, ?_, ?_, f_key_id, ?_, ?_⟩
          · intro _
            rw [hsim']
            exact hpos'
          · intro p hp
            rw [hcpv] at hp
            exact absurd hp (by simp)
          · intro kv hkv
            rw [hpendnil] at hkv
            exact absurd hkv (List.not_mem_nil kv)
          · intro kv hkv
            rw [hpendnil] at hkv
            exact absurd hkv (List.not_mem_nil kv)
          · intro kv hkv
            rw [hsim', hpos'] at hkv
            exact absurd hkv (List.not_mem_nil kv)
      | exit =>
        obtain ⟨hsell, hmatch⟩ := hInv.exit_pend (oid, lo) hmemlo hot
        have hcpv : s'.current_position = none := by
          rw [hcp']
          simp only [hot]
        have hpos' : (s.simulator.execute_fill lo pr).sim.positions = [] := by
          cases hcps : s.current_position with
          | none =>
            have hposnil := hInv.cp_none hcps
            have hg : getA lo.symbol s.simulator.positions = none := by
              rw [hposnil]; rfl
            rw [(execute_fill_sell_no_pos s.simulator lo pr hsell hg).2.1, hposnil]
          | some q =>
            obtain ⟨_, sp, hposes, hqq⟩ := hInv.cp_some q hcps
            obtain ⟨hsym, hamt⟩ := hmatch (q.symbol, sp)
              (by rw [hposes]; exact List.mem_singleton.mpr rfl)
            have hg : getA lo.symbol s.simulator.positions = some sp := by
              rw [hposes, hsym]
              simp [getA]
            have hqle : sp.quantity - lo.amount ≤ 0 := by
              rw [hamt]
              simp
            rw [execute_fill_sell_closed_positions s.simulator lo pr hsell sp hg hqle,
              hposes, hsym]
            simp [eraseA]
        refine ⟨f_pend_eq, f_nodup, f_pend_lt, f_filled_lt, f_filled_fresh,
          ?_, ?_, ?_, f_key_id, ?_, ?_⟩
        · intro _
          rw [hsim']
          exact hpos'
        · intro p hp
          rw [hcpv] at hp
          exact absurd hp (by simp)
        · intro kv hkv hty'
          rw [hpend'] at hkv
          obtain ⟨hnone, hsingle⟩ :=
            hInv.entry_pend kv ((eraseA_sublist _ _).subset hkv) hty'
          rw [hsingle] at hmemlo
          have heqkv := List.mem_singleton.mp hmemlo
          rw [← heqkv] at hty'
          rw [hot] at hty'
          exact absurd hty' (by simp)
        · intro kv hkv hty'
          rw [hpend'] at hkv
          obtain ⟨hskv, _⟩ := hInv.exit_pend kv ((eraseA_sublist _ _).subset hkv) hty'
          refine ⟨hskv, ?_⟩
          intro spv hspv
          rw [hsim', hpos'] at hspv
          exact absurd hspv (List.not_mem_nil spv)
        · intro kv hkv
          rw [hsim', hpos'] at hkv
          exact absurd hkv (List.not_mem_nil kv)

theorem inv_step (s : SysState) (op : Op) (hInv : Inv s) : Inv (stepOp s op) := by
  cases op with
  | placeEntry sym side pr am => exact inv_placeEntry s sym side pr am hInv
  | closePos pr => exact inv_closePos s pr hInv
  | tick oid pr => exact inv_tick s oid pr hInv

theorem inv_runOps (ops : List Op) : ∀ s : SysState, Inv s → Inv (runOps s ops) := by
  induction ops with
  | nil => intro s h; exact h
  | cons op rest ih =>
    intro s h
    exact ih (stepOp s op) (inv_step s op h)

theorem inv_positions_le_one (s : SysState) (h : Inv s) :
    s.simulator.positions.length ≤ 1 := by
  cases hcp : s.current_position with
  | none => rw [h.cp_none hcp]; simp
  | some p =>
    obtain ⟨_, sp, hl, _⟩ := h.cp_some p hcp
    rw [hl]
    simp

/-- C2 counterexample: `place_limit_order` itself enforces no guard, so a
sequence of two unguarded entry placements (on two symbols) followed by
their fills leaves **two** simultaneously open positions, in the
simulator and in the `test_positions` table. -/
theorem C2_counterexample :
    ((check_order_status (check_order_status
        (place_limit_order (place_limit_order (initSys 10000)
          "BTC/USDT" .buy 100 1 .entry).2
          "ETH/USDT" .buy 10 1 .entry).2
        0 (some 100)).state
        1 (some 10)).state.simulator.positions.map (fun kv => (kv.1, kv.2.status)))
      = [("BTC/USDT", .open_), ("ETH/USDT", .open_)]
    ∧ ((check_order_status (check_order_status
        (place_limit_order (place_limit_order (initSys 10000)
          "BTC/USDT" .buy 100 1 .entry).2
          "ETH/USDT" .buy 10 1 .entry).2
        0 (some 100)).state
        1 (some 10)).state.db.test_positions.map (fun kv => kv.2.status))
      = [.open_, .open_] := by
  refine ⟨?_, ?_⟩ <;>
    norm_num +decide [check_order_status, place_limit_order, initSys,
      PaperTradingSimulator.simulate_fill, PaperTradingSimulator.execute_fill,
      PaperTradingSimulator.place_limit_order, PaperTradingSimulator.get_position,
      PaperTradingSimulator.init, SimPosition.toDB,
      getA, setA, eraseA, List.find?]

/-- C2 amended: over every sequence of trading-loop operations in which
entry orders are placed only when `can_open_position` returns true (as
the bot's `execute_trade` does), exits go through `close_position`, and
fills arrive through `check_order_status`, at most one position exists in
the simulator's position set at any observed instant, and every tracked
position has status `open`. -/
theorem C2_amended_guarded_single_position (b : ℚ) (ops : List Op) :
    ((runOps (initSys b) ops).simulator.positions.length ≤ 1)
    ∧ ∀ kv ∈ (runOps (initSys b) ops).simulator.positions, kv.2.status = .open_ := by
  have h := inv_runOps ops (initSys b) (inv_init b)
  exact ⟨inv_positions_le_one _ h, h.pos_open⟩

/-- Witness for C2 amended: a guarded entry placement followed by its fill
leaves exactly one open position. -/
theorem C2_amended_witness :
    ((runOps (initSys 10000)
      [Op.placeEntry "BTC/USDT" .buy 100 1, Op.tick 0 100]).simulator.positions.length ≤ 1)
    ∧ ∀ kv ∈ (runOps (initSys 10000)
      [Op.placeEntry "BTC/USDT" .buy 100 1, Op.tick 0 100]).simulator.positions,
        kv.2.status = .open_ :=
  C2_amended_guarded_single_position 10000 [Op.placeEntry "BTC/USDT" .buy 100 1, Op.tick 0 100]

end TradingBot
